import Mathlib

/-!
Shallow embedding of the `deploy-ftp` synchronization engine
(`FtpDeploy` class, file `src/index.ts`).

Modelling conventions:
* JavaScript objects used as string maps (`Record<string, string>`) are
  association lists (`Manifest`); `mlookup`/`minsert`/`merase` mirror
  property read, property assignment (replace-in-place or append, matching
  JS insertion-order semantics) and the `delete` operator.
* JS truthiness of a map read (`!obj[k]`) is `falsy`: `undefined` (here
  `none`) and the empty string are falsy.
* The remote server state is `RemoteState`: the list of remote file paths
  (relative to the remote root, listing order), the list of remote
  directories, and the persisted manifest file content (`none` if absent).
* Transport mutations are recorded in an event trace (`TransportOp`);
  reads (directory listings, size queries, downloads) are not mutations
  and do not appear in the trace.
* Network failures are modelled by a `Faults` oracle giving the final
  outcome of each transport call (after any retries, for the calls the
  source wraps in `executeWithRetry`).  A `try/catch` in the source
  becomes a branch on the oracle.
-/

namespace FtpDeploy

/-- Configuration record, mirroring `FtpDeployConfig` (src/index.ts lines
6-16) after the constructor fills in defaults (lines 37-46). -/
structure FtpDeployConfig where
  local_dir : String
  remote_dir : String
  clean_remote_files : Bool := false
  clear_destination : Bool := false
  dry_run : Bool := false
  preserve : List String := []
  reconnect : Bool := true
  max_retries : Nat := 3
  retry_delay : Nat := 1000
deriving DecidableEq, Repr

/-- `DeployStats` (src/index.ts lines 18-23): ordered result lists. -/
structure DeployStats where
  uploaded : List String := []
  removed : List String := []
  unchanged : List String := []
  errors : List String := []
deriving DecidableEq, Repr

/-- Transport mutation events issued by the engine.  Paths are relative to
the remote root; `ensureDir ""` stands for ensuring the root itself. -/
inductive TransportOp where
  | upload (p : String)
  | removeFile (p : String)
  | removeDir (d : String)
  | ensureDir (d : String)
  | saveManifest
deriving DecidableEq, Repr

/-- A JS object used as a string-to-string map (`Record<string, string>`),
kept as an association list in insertion order. -/
abbrev Manifest := List (String × String)

/-- Property read `m[k]` on a JS object: first binding of `k`. -/
def mlookup : Manifest → String → Option String
  | [], _ => none
  | (a, b) :: t, k => if a = k then some b else mlookup t k

/-- Property assignment `m[k] = v` on a JS object: overwrite the binding
in place if the key exists, otherwise append (JS string keys keep
insertion order; keys of a JS object are unique, so replacing the first
binding is exact). -/
def minsert : Manifest → String → String → Manifest
  | [], k, v => [(k, v)]
  | (a, b) :: t, k, v => if a = k then (a, v) :: t else (a, b) :: minsert t k v

/-- `delete m[k]` on a JS object. -/
def merase (m : Manifest) (k : String) : Manifest :=
  m.filter (fun e => e.1 != k)

/-- JS truthiness test `!m[k]` applied to a map read: `undefined` and the
empty string are falsy. -/
def falsy : Option String → Bool
  | none => true
  | some s => s == ""

/-- Remote server state: file paths and directory paths relative to the
remote root (the raw listing, which may even contain files named like the
manifest), plus the content of the persisted manifest file. -/
structure RemoteState where
  files : List String := []
  dirs : List String := []
  manifest : Option Manifest := none
deriving DecidableEq, Repr

/-- In-flight engine state threaded through the stages of `deploy()`:
the in-memory manifest working copy (`remoteHashes`), the remote state,
the accumulated stats and the trace of issued transport mutations. -/
structure EngineState where
  manifest : Manifest := []
  remote : RemoteState := {}
  stats : DeployStats := {}
  trace : List TransportOp := []
deriving DecidableEq, Repr


/-! ### Path helpers and the preserve matcher

The few string operations the source uses (`replace`, `startsWith`,
`endsWith`, slash-splitting) are implemented here structurally over the
underlying character list, with the same semantics as the JS originals,
so that concrete runs of the model reduce inside the kernel. -/

/-- `filePath.replace(/\\/g, '/')` (src/index.ts lines 146-147): the
pattern is a single character, so this is a character map. -/
def normalizeSlashes (s : String) : String :=
  String.mk (s.data.map fun c => if c = '\\' then '/' else c)

/-- `s.endsWith('/')` for a path string: its last character is `/`. -/
def endsWithSlash (s : String) : Bool := s.data.getLast? = some '/'

/-- Strip one trailing `/` from a normalized preserve entry
(src/index.ts lines 148-149, `slice(0, -1)`). -/
def cleanPreservePath (s : String) : String :=
  let n := normalizeSlashes s
  if endsWithSlash n then String.mk n.data.dropLast else n

/-- `a.startsWith(b)` on strings (character-list prefix test). -/
def strStartsWith (s pre : String) : Bool := pre.data.isPrefixOf s.data

/-- `FtpDeploy.shouldPreserve` (src/index.ts lines 142-161): a path is
preserved when some preserve entry, with separators normalized and one
trailing slash stripped, equals the normalized path or is a proper
path-segment prefix of it.  The `console.log` inside the source's `some`
callback is observability only and is dropped. -/
def shouldPreserve (preserve : List String) (filePath : String) : Bool :=
  preserve.any fun preservePath =>
    let normalizedFile := normalizeSlashes filePath
    let cleanPath := cleanPreservePath preservePath
    normalizedFile == cleanPath ||
      strStartsWith normalizedFile (cleanPath ++ "/")

/-- `HASH_FILE_NAME` (src/index.ts line 26). -/
def hashFileName : String := ".deploy_ftp_hash.json"

/-- `path.posix.join` as used for `this.remoteHashFile`
(src/index.ts line 47), restricted to the shapes that occur there:
a directory joined with a bare file name. -/
def posixJoin (a b : String) : String :=
  if a = "" then b
  else if endsWithSlash a then a ++ b
  else a ++ "/" ++ b

/-- `this.remoteHashFile = path.posix.join(remote_dir, HASH_FILE_NAME)`
(src/index.ts line 47). -/
def remoteHashFile (cfg : FtpDeployConfig) : String :=
  posixJoin cfg.remote_dir hashFileName

/-- Split a character list at `/` separators. -/
def splitOnSlash : List Char → List (List Char)
  | [] => [[]]
  | c :: t =>
    match splitOnSlash t with
    | [] => [[]]
    | h :: r => if c = '/' then [] :: h :: r else (c :: h) :: r

/-- Base name of a relative path (the part after the last `/`). -/
def fileName (p : String) : String :=
  String.mk (((splitOnSlash p.data).getLast?).getD p.data)

/-- Directory part of a relative path (`path.posix.dirname` against the
remote root): everything before the last `/`, or `""` for a top-level
file (meaning the remote root itself). -/
def dirName (p : String) : String :=
  String.intercalate "/" (((splitOnSlash p.data).dropLast).map String.mk)

/-- Whether path `p` lies strictly under directory `d`. -/
def isUnder (d p : String) : Bool := strStartsWith p (d ++ "/")

/-- `FtpDeploy.getRemoteFiles` (src/index.ts lines 191-211) produces the
remote listing relative to the remote root, skipping every file whose
base name is `HASH_FILE_NAME` (line 202).  In the flat model this is a
filter over the raw remote file list. -/
def listRemoteFiles (rs : RemoteState) : List String :=
  rs.files.filter (fun p => fileName p != hashFileName)

/-! ### The retry executor -/

/-- Errors thrown by transport operations, as classified by
`executeWithRetry` (src/index.ts lines 92-96): `conn` stands for an error
whose `code` is `ECONNRESET`/`ENOTFOUND`/`ETIMEDOUT`/`ECONNREFUSED` or
whose message mentions a connection; `other` is everything else. -/
inductive FtpError where
  | conn (msg : String)
  | other (msg : String)
deriving DecidableEq, Repr

/-- The connection-classification of src/index.ts lines 92-96, already
folded into the `FtpError` constructor. -/
def isConnectionError : FtpError → Bool
  | .conn _ => true
  | .other _ => false

/-- The generic error built at src/index.ts line 115. -/
def retryExhaustedError (retries : Nat) : FtpError :=
  .other ("Operation failed after " ++ toString retries ++ " attempts")

/-- Loop body of `FtpDeploy.executeWithRetry` (src/index.ts lines 88-114).
`op a` is the outcome of the wrapped operation on attempt `a`; `recon a`
the outcome of `this.reconnect()` after attempt `a`.  `rem` counts the
loop iterations still available including the current one, so the loop
guard `attempt <= retries` is `rem > 0`, `attempt < retries` is
`rem - 1 ≥ 1`, and `attempt === retries` is `rem - 1 = 0`. -/
def retryGo (reconnectEnabled : Bool) (retries : Nat)
    (op : Nat → Except FtpError α) (recon : Nat → Except String Unit) :
    Nat → Nat → Except FtpError α
  | _, 0 => .error (retryExhaustedError retries)
  | attempt, rem + 1 =>
    match op attempt with
    | .ok v => .ok v
    | .error e =>
      if isConnectionError e && reconnectEnabled && decide (1 ≤ rem) then
        match recon attempt with
        | .ok _ => retryGo reconnectEnabled retries op recon (attempt + 1) rem
        | .error _ =>
          if rem = 0 then .error e
          else retryGo reconnectEnabled retries op recon (attempt + 1) rem
      else .error e

/-- `FtpDeploy.executeWithRetry` (src/index.ts lines 83-116): run the loop
from attempt 1 with `retries` iterations available. -/
def executeWithRetry (reconnectEnabled : Bool) (retries : Nat)
    (op : Nat → Except FtpError α) (recon : Nat → Except String Unit) :
    Except FtpError α :=
  retryGo reconnectEnabled retries op recon 1 retries

/-! ### Fault oracle -/

/-- Outcome oracle for the transport calls a run performs.  Each field
gives the final outcome of the corresponding call (after the bounded
retries of `executeWithRetry`, for the calls the source wraps in it):
`true`/`true`-valued means the call ultimately throws. -/
structure Faults where
  connectFails : Bool := false
  sizeFails : Bool := false
  downloadFails : Bool := false
  uploadFails : String → Bool := fun _ => false
  removeFails : String → Bool := fun _ => false
  saveFails : Bool := false

/-- The fault-free transport. -/
def noFaults : Faults := {}

/-! ### Remote manifest store -/

/-- `FtpDeploy.remoteFileExists` (src/index.ts lines 132-139): a single
`client.size` call (not wrapped in `executeWithRetry`); any thrown error
— including a transient connection error — yields `false`. -/
def remoteFileExists (sizeResult : Except String Nat) : Bool :=
  match sizeResult with
  | .ok _ => true
  | .error _ => false

/-- Outcome of the `client.size(this.remoteHashFile)` probe: a transient
fault throws, a missing manifest throws a not-found error, otherwise the
size is returned (its value is irrelevant to the engine). -/
def sizeProbe (faults : Faults) (rs : RemoteState) : Except String Nat :=
  if faults.sizeFails then .error "ETIMEDOUT"
  else
    match rs.manifest with
    | some m => .ok m.length
    | none => .error "550 no such file"

/-- `FtpDeploy.loadRemoteHashes` (src/index.ts lines 241-265): if the
existence probe fails the manifest is treated as absent; otherwise the
manifest is downloaded (with retry) and parsed, any failure being logged
and swallowed, leaving the empty map. -/
def loadRemoteHashes (faults : Faults) (rs : RemoteState) : Manifest :=
  if remoteFileExists (sizeProbe faults rs) then
    match rs.manifest with
    | some m => if faults.downloadFails then [] else m
    | none => []
  else []

/-! ### Deploy stages -/

/-- Per-file loop of `FtpDeploy.clearDestination` (src/index.ts lines
218-234): in dry-run every listed file is only recorded as removed;
otherwise `client.remove` is issued and a failure is recorded into
`errors` instead. -/
def clearFiles (dryRun : Bool) (removeFails : String → Bool) :
    List String → EngineState → EngineState
  | [], s => s
  | f :: rest, s =>
    if dryRun then
      clearFiles dryRun removeFails rest
        { s with stats.removed := s.stats.removed ++ [f] }
    else if removeFails f then
      clearFiles dryRun removeFails rest
        { s with stats.errors := s.stats.errors ++ ["Failed to clear " ++ f] }
    else
      clearFiles dryRun removeFails rest
        { s with
          remote.files := s.remote.files.filter (fun q => q != f),
          stats.removed := s.stats.removed ++ [f],
          trace := s.trace ++ [TransportOp.removeFile f] }

/-- Whether a remote directory can be removed by
`FtpDeploy.removeEmptyDirectories` (src/index.ts lines 164-189): it is
not the root, is not preserved (a directory under a preserved directory
is itself preserved, because matching is prefix-based, so the source's
skip of preserved subtrees at line 171 is subsumed), and has no content:
no listed file below it (files named `HASH_FILE_NAME` are ignored by the
`hasContent` check at line 175) and no other listed directory below it. -/
def dirRemovable (preserve : List String) (files dirs : List String)
    (d : String) : Bool :=
  d != "" && !shouldPreserve preserve d &&
    files.all (fun f => !isUnder d f) &&
    dirs.all (fun d2 => !isUnder d d2)

/-- Fuelled fixpoint of the bottom-up empty-directory sweep: repeatedly
remove some removable directory, mirroring the effect of the source's
DFS (src/index.ts lines 164-189).  Returns the surviving directories and
the `removeDir` events issued. -/
def pruneGo (preserve : List String) (files : List String) :
    Nat → List String → List String × List TransportOp
  | 0, dirs => (dirs, [])
  | fuel + 1, dirs =>
    match dirs.find? (dirRemovable preserve files dirs) with
    | none => (dirs, [])
    | some d =>
      let r := pruneGo preserve files fuel (dirs.filter (fun q => q != d))
      (r.1, TransportOp.removeDir d :: r.2)

/-- `FtpDeploy.removeEmptyDirectories` applied at the remote root
(src/index.ts lines 164-189): in dry-run the walk only logs (line 179)
and mutates nothing; otherwise empty directories are removed bottom-up.
Directory listing failures are swallowed by the source (line 186). -/
def removeEmptyDirectories (cfg : FtpDeployConfig) (s : EngineState) :
    EngineState :=
  if cfg.dry_run then s
  else
    let fs := listRemoteFiles s.remote
    let r := pruneGo cfg.preserve fs s.remote.dirs.length s.remote.dirs
    { s with remote.dirs := r.1, trace := s.trace ++ r.2 }

/-- `FtpDeploy.clearDestination` (src/index.ts lines 214-238): list every
remote file (manifest excluded), remove each, then sweep empty
directories. -/
def clearDestination (cfg : FtpDeployConfig) (faults : Faults)
    (s : EngineState) : EngineState :=
  let remoteFiles := listRemoteFiles s.remote
  removeEmptyDirectories cfg
    (clearFiles cfg.dry_run faults.removeFails remoteFiles s)

/-- One iteration of the upload loop of `FtpDeploy.deploy` (src/index.ts
lines 357-386) for relative path `p`.  `localHashes` is the map built at
lines 341-345; the iteration reads `localHash = localHashes[p]` and
compares it with the working manifest: equal means unchanged (no
transport call at all); otherwise in dry-run the upload is only recorded
and the working manifest updated; otherwise `ensureDir` on the file's
directory and the upload are issued, a failure of either being recorded
into `errors` (and then neither the stats nor the manifest change). -/
def uploadStep (cfg : FtpDeployConfig) (faults : Faults)
    (localHashes : Manifest) (p : String) (s : EngineState) : EngineState :=
  let localHash := (mlookup localHashes p).getD ""
  if mlookup s.manifest p = some localHash then
    { s with stats.unchanged := s.stats.unchanged ++ [p] }
  else if cfg.dry_run then
    { s with
      stats.uploaded := s.stats.uploaded ++ [p],
      manifest := minsert s.manifest p localHash }
  else if faults.uploadFails p then
    { s with stats.errors := s.stats.errors ++ ["Failed to upload " ++ p] }
  else
    { s with
      trace := s.trace ++ [TransportOp.ensureDir (dirName p),
                           TransportOp.upload p],
      remote.files :=
        if p ∈ s.remote.files then s.remote.files else s.remote.files ++ [p],
      remote.dirs :=
        if dirName p = "" ∨ dirName p ∈ s.remote.dirs then s.remote.dirs
        else s.remote.dirs ++ [dirName p],
      stats.uploaded := s.stats.uploaded ++ [p],
      manifest := minsert s.manifest p localHash }

/-- The upload loop (src/index.ts lines 357-386), iterating over the
local files in scan order. -/
def uploadFiles (cfg : FtpDeployConfig) (faults : Faults)
    (localHashes : Manifest) :
    List (String × String) → EngineState → EngineState
  | [], s => s
  | e :: rest, s =>
    uploadFiles cfg faults localHashes rest
      (uploadStep cfg faults localHashes e.1 s)

/-- Sentinel insertion for preserved orphans (src/index.ts lines
399-408): each preserved file lacking a (truthy) manifest entry gets the
placeholder value `"preserved"`. -/
def markPreserved : List String → Manifest → Manifest
  | [], m => m
  | p :: rest, m =>
    markPreserved rest
      (if falsy (mlookup m p) then minsert m p "preserved" else m)

/-- Orphan removal loop (src/index.ts lines 413-434): in dry-run record
only; otherwise issue the (retry-wrapped) `client.remove`, a failure
going to `errors`, a success removing the file, recording it and
deleting its manifest entry. -/
def removeOrphans (cfg : FtpDeployConfig) (faults : Faults) :
    List String → EngineState → EngineState
  | [], s => s
  | p :: rest, s =>
    if cfg.dry_run then
      removeOrphans cfg faults rest
        { s with
          stats.removed := s.stats.removed ++ [p],
          manifest := merase s.manifest p }
    else if faults.removeFails p then
      removeOrphans cfg faults rest
        { s with stats.errors := s.stats.errors ++ ["Failed to remove " ++ p] }
    else
      removeOrphans cfg faults rest
        { s with
          trace := s.trace ++ [TransportOp.removeFile p],
          remote.files := s.remote.files.filter (fun q => q != p),
          stats.removed := s.stats.removed ++ [p],
          manifest := merase s.manifest p }

/-- Clean phase of `FtpDeploy.deploy` (src/index.ts lines 388-442), run
when clean mode is on and clear-destination is off: partition the
orphans (remote listing entries with a falsy local-hash lookup) by the
preserve matcher, insert sentinels for the preserved ones, remove the
rest, and sweep empty directories when anything was slated for
removal. -/
def cleanPhase (cfg : FtpDeployConfig) (faults : Faults)
    (remoteFiles : List String) (localHashes : Manifest)
    (s : EngineState) : EngineState :=
  let orphanedFiles :=
    remoteFiles.filter (fun p => falsy (mlookup localHashes p))
  let filesToRemove :=
    orphanedFiles.filter (fun p => !shouldPreserve cfg.preserve p)
  let preservedFiles :=
    orphanedFiles.filter (fun p => shouldPreserve cfg.preserve p)
  let s1 := { s with manifest := markPreserved preservedFiles s.manifest }
  let s2 := removeOrphans cfg faults filesToRemove s1
  if filesToRemove.isEmpty then s2 else removeEmptyDirectories cfg s2

/-- Stages 1-2 of `deploy()` (src/index.ts lines 334-336): optional
destination clearing, then manifest load into the working copy. -/
def stage2 (cfg : FtpDeployConfig) (faults : Faults) (rs0 : RemoteState) :
    EngineState :=
  let s0 : EngineState := { remote := rs0 }
  let s1 := if cfg.clear_destination then clearDestination cfg faults s0 else s0
  { s1 with manifest := loadRemoteHashes faults s1.remote }

/-- Stages 3-4 (src/index.ts lines 346-442): the remote listing for
clean mode is taken before the upload loop (lines 347-352), then the
upload loop runs, then the clean phase. -/
def stage4 (cfg : FtpDeployConfig) (faults : Faults)
    (localHashes : Manifest) (rs0 : RemoteState) : EngineState :=
  let s2 := stage2 cfg faults rs0
  let s3 := uploadFiles cfg faults localHashes localHashes s2
  if cfg.clean_remote_files && !cfg.clear_destination then
    cleanPhase cfg faults (listRemoteFiles s2.remote) localHashes s3
  else s3

/-- Result of a `deploy()` call: the returned stats, the final remote
state, the final in-memory manifest working copy, the trace of issued
transport mutations, and whether the connection was closed (the
source's `finally` at src/index.ts lines 457-460). -/
structure DeployResult where
  stats : DeployStats
  remote : RemoteState
  manifest : Manifest
  trace : List TransportOp
  closed : Bool
deriving DecidableEq, Repr

/-- Manifest persistence and wrap-up (src/index.ts lines 444-460): in
dry-run the manifest is not persisted; otherwise `saveRemoteHashes`
uploads it, a failure escaping to the outer catch which records it into
`errors` and still returns the stats; the connection is closed on every
path. -/
def finalize (cfg : FtpDeployConfig) (faults : Faults) (s : EngineState) :
    DeployResult :=
  if cfg.dry_run then
    { stats := s.stats, remote := s.remote, manifest := s.manifest,
      trace := s.trace, closed := true }
  else if faults.saveFails then
    { stats :=
        { s.stats with
          errors := s.stats.errors ++ ["Critical error: failed to save manifest"] },
      remote := s.remote, manifest := s.manifest,
      trace := s.trace, closed := true }
  else
    { stats := s.stats,
      remote := { s.remote with manifest := some s.manifest },
      manifest := s.manifest,
      trace := s.trace ++ [TransportOp.saveManifest], closed := true }

/-- `FtpDeploy.deploy` (src/index.ts lines 327-461).  `localHashes` is
the local tree as the map from relative path (separators normalized) to
content hash, in local scan order (lines 338-345).  A connection
failure at line 331 is caught by the outer catch (lines 453-456): it is
recorded into `errors` and the stats are returned, the `finally` closing
the connection. -/
def deploy (cfg : FtpDeployConfig) (faults : Faults)
    (localHashes : Manifest) (rs0 : RemoteState) : DeployResult :=
  if faults.connectFails then
    { stats := { errors := ["Critical error: connection failed"] },
      remote := rs0, manifest := [], trace := [], closed := true }
  else
    finalize cfg faults (stage4 cfg faults localHashes rs0)

/-! ### Concrete fixtures used by witnesses and counterexamples -/

/-- Configuration with clear-destination enabled, for the concrete runs. -/
def cfgClear : FtpDeployConfig :=
  { local_dir := "dist", remote_dir := "/site", clear_destination := true }

/-- Plain configuration (all modes off). -/
def cfgPlain : FtpDeployConfig := { local_dir := "d", remote_dir := "/site" }

/-- A two-file local tree. -/
def lhTwo : Manifest := [("a.txt", "h1"), ("b.txt", "h2")]

/-- A remote state whose persisted manifest already knows `a.txt`. -/
def rsOne : RemoteState := { manifest := some [("a.txt", "h1")] }

/-- Clean-mode configuration preserving the `keep` directory. -/
def cfgClean : FtpDeployConfig :=
  { cfgPlain with clean_remote_files := true, preserve := ["keep"] }

/-- Remote state with one in-sync file, one orphan and one preserved
orphan. -/
def rsClean : RemoteState :=
  { files := ["a.txt", "old.txt", "keep/x"], manifest := some [("a.txt", "h1"), ("old.txt", "h9")] }

/-- Clean-mode-only configuration. -/
def cfgCleanOnly : FtpDeployConfig :=
  { cfgPlain with clean_remote_files := true }

/-- Clean mode together with dry-run. -/
def cfgDryClean : FtpDeployConfig :=
  { cfgPlain with clean_remote_files := true, dry_run := true }

/-- Clean mode together with clear-destination. -/
def cfgClearClean : FtpDeployConfig :=
  { cfgPlain with clean_remote_files := true, clear_destination := true }

/-- An empty remote server. -/
def rsEmpty : RemoteState := {}

/-- Remote state for the clear-destination run: the file `a.txt` exists
remotely and the persisted manifest records its current hash. -/
def rsClear : RemoteState :=
  { files := ["a.txt"], manifest := some [("a.txt", "h1")] }

/-! ## Theorems -/

/-! ### Basic lemmas about the map operations -/

theorem mlookup_cons (a b q : String) (t : Manifest) :
    mlookup ((a, b) :: t) q = if a = q then some b else mlookup t q := rfl

theorem merase_cons_eq (b k : String) (t : Manifest) :
    merase ((k, b) :: t) k = merase t k := by
  simp [merase, List.filter_cons]

theorem merase_cons_ne (a b k : String) (t : Manifest) (h : a ≠ k) :
    merase ((a, b) :: t) k = (a, b) :: merase t k := by
  simp [merase, List.filter_cons, bne_iff_ne, h]

/-- Full characterization of `minsert` through `mlookup`. -/
theorem mlookup_minsert (m : Manifest) (k v q : String) :
    mlookup (minsert m k v) q = if q = k then some v else mlookup m q := by
  induction m with
  | nil =>
      show mlookup [(k, v)] q = _
      rw [mlookup_cons]
      by_cases hq : q = k
      · rw [if_pos (hq ▸ rfl), if_pos hq]
      · rw [if_neg (fun h => hq h.symm), if_neg hq]
  | cons e t ih =>
      obtain ⟨a, b⟩ := e
      by_cases hak : a = k
      · subst hak
        rw [show minsert ((a, b) :: t) a v = (a, v) :: t by
              rw [minsert, if_pos rfl]]
        rw [mlookup_cons]
        by_cases hq : q = a
        · rw [if_pos (hq ▸ rfl), if_pos hq]
        · rw [if_neg (fun h => hq h.symm), if_neg hq, mlookup_cons,
            if_neg (fun h => hq h.symm)]
      · rw [show minsert ((a, b) :: t) k v = (a, b) :: minsert t k v by
              rw [minsert, if_neg hak]]
        rw [mlookup_cons, mlookup_cons]
        by_cases haq : a = q
        · have hqk : ¬q = k := fun h => hak (haq.trans h)
          rw [if_pos haq, if_neg hqk, if_pos haq]
        · rw [if_neg haq, if_neg haq, ih]

/-- Full characterization of `merase` through `mlookup`. -/
theorem mlookup_merase (m : Manifest) (k q : String) :
    mlookup (merase m k) q = if q = k then none else mlookup m q := by
  induction m with
  | nil =>
      show mlookup [] q = _
      by_cases hq : q = k <;> simp [mlookup, hq]
  | cons e t ih =>
      obtain ⟨a, b⟩ := e
      by_cases hak : a = k
      · subst hak
        rw [merase_cons_eq, ih, mlookup_cons]
        by_cases hq : q = a
        · rw [if_pos hq, if_pos hq]
        · rw [if_neg hq, if_neg hq, if_neg (fun h => hq h.symm)]
      · rw [merase_cons_ne a b k t hak, mlookup_cons, mlookup_cons]
        by_cases haq : a = q
        · have hqk : ¬q = k := fun h => hak (haq.trans h)
          rw [if_pos haq, if_neg hqk, if_pos haq]
        · rw [if_neg haq, if_neg haq, ih]

theorem mlookup_of_mem_nodup (m : Manifest) (p h : String)
    (hmem : (p, h) ∈ m) (hnd : (m.map Prod.fst).Nodup) :
    mlookup m p = some h := by
  induction m with
  | nil => cases hmem
  | cons e t ih =>
      obtain ⟨a, b⟩ := e
      simp only [List.map_cons, List.nodup_cons] at hnd
      rcases List.mem_cons.mp hmem with heq | hmem2
      · cases heq
        simp [mlookup]
      · have hap : a ≠ p := by
          intro hap
          subst hap
          exact hnd.1 (List.mem_map.mpr ⟨(a, h), hmem2, rfl⟩)
        simp [mlookup, hap, ih hmem2 hnd.2]

theorem mlookup_eq_none_iff (m : Manifest) (q : String) :
    mlookup m q = none ↔ q ∉ m.map Prod.fst := by
  induction m with
  | nil => simp [mlookup]
  | cons e t ih =>
      obtain ⟨a, b⟩ := e
      rw [mlookup_cons]
      by_cases hak : a = q
      · subst hak
        simp
      · simp only [if_neg hak, ih, List.map_cons, List.mem_cons]
        constructor
        · intro h hq
          rcases hq with hq | hq
          · exact hak hq.symm
          · exact h hq
        · intro h hq
          exact h (Or.inr hq)

/-! ### Lookup and truthiness lemmas -/

theorem mlookup_mem (m : Manifest) (q v : String) :
    mlookup m q = some v → (q, v) ∈ m := by
  induction m with
  | nil => intro h; cases h
  | cons e t ih =>
      obtain ⟨a, b⟩ := e
      rw [mlookup_cons]
      by_cases hak : a = q
      · subst hak
        intro h
        cases (if_pos rfl).symm.trans h
        exact List.mem_cons_self _ _
      · rw [if_neg hak]
        intro h
        exact List.mem_cons_of_mem _ (ih h)

/-- With non-empty hash strings, the JS truthiness test on a map read is
exactly key absence. -/
theorem falsy_mlookup (lh : Manifest) (q : String)
    (hne : ∀ e ∈ lh, e.2 ≠ "") :
    falsy (mlookup lh q) = (!(lh.map Prod.fst).contains q) := by
  cases h : mlookup lh q with
  | none =>
      have := (mlookup_eq_none_iff lh q).mp h
      simp [falsy, List.elem_iff, this]
  | some v =>
      have hv : v ≠ "" := hne (q, v) (mlookup_mem lh q v h)
      have hq : q ∈ lh.map Prod.fst :=
        List.mem_map.mpr ⟨(q, v), mlookup_mem lh q v h, rfl⟩
      simp [falsy, List.elem_iff, hq, hv]

theorem falsy_false_of_some (lh : Manifest) (q v : String)
    (h : mlookup lh q = some v) (hv : v ≠ "") :
    falsy (mlookup lh q) = false := by
  rw [h]
  simpa [falsy] using hv

/-! ### uploadStep observables -/

theorem uploadStep_stats_removed (cfg : FtpDeployConfig) (faults : Faults)
    (lh : Manifest) (q : String) (s : EngineState) :
    (uploadStep cfg faults lh q s).stats.removed = s.stats.removed := by
  simp only [uploadStep]
  split_ifs <;> rfl

theorem uploadStep_remote_manifest (cfg : FtpDeployConfig) (faults : Faults)
    (lh : Manifest) (q : String) (s : EngineState) :
    (uploadStep cfg faults lh q s).remote.manifest = s.remote.manifest := by
  simp only [uploadStep]
  split_ifs <;> rfl

theorem uploadStep_manifest_lookup_ne (cfg : FtpDeployConfig)
    (faults : Faults) (lh : Manifest) (q : String) (s : EngineState)
    (p : String) (h : p ≠ q) :
    mlookup (uploadStep cfg faults lh q s).manifest p =
      mlookup s.manifest p := by
  simp only [uploadStep]
  split_ifs <;> simp [mlookup_minsert, h]

theorem uploadStep_unchanged_mem_ne (cfg : FtpDeployConfig)
    (faults : Faults) (lh : Manifest) (q : String) (s : EngineState)
    (p : String) (h : p ≠ q) :
    (p ∈ (uploadStep cfg faults lh q s).stats.unchanged ↔
      p ∈ s.stats.unchanged) := by
  simp only [uploadStep]
  split_ifs <;> simp [List.mem_append, h]

theorem uploadStep_uploaded_mem_ne (cfg : FtpDeployConfig)
    (faults : Faults) (lh : Manifest) (q : String) (s : EngineState)
    (p : String) (h : p ≠ q) :
    (p ∈ (uploadStep cfg faults lh q s).stats.uploaded ↔
      p ∈ s.stats.uploaded) := by
  simp only [uploadStep]
  split_ifs <;> simp [List.mem_append, h]

theorem uploadStep_trace_upload_ne (cfg : FtpDeployConfig)
    (faults : Faults) (lh : Manifest) (q : String) (s : EngineState)
    (p : String) (h : p ≠ q) :
    (TransportOp.upload p ∈ (uploadStep cfg faults lh q s).trace ↔
      TransportOp.upload p ∈ s.trace) := by
  simp only [uploadStep]
  split_ifs <;> simp [List.mem_append, h]

theorem uploadStep_trace_removeFile (cfg : FtpDeployConfig)
    (faults : Faults) (lh : Manifest) (q : String) (s : EngineState)
    (p : String) :
    (TransportOp.removeFile p ∈ (uploadStep cfg faults lh q s).trace ↔
      TransportOp.removeFile p ∈ s.trace) := by
  simp only [uploadStep]
  split_ifs <;> simp [List.mem_append]

theorem uploadStep_files_mem (cfg : FtpDeployConfig) (faults : Faults)
    (lh : Manifest) (q : String) (s : EngineState) (x : String) :
    x ∈ (uploadStep cfg faults lh q s).remote.files →
      x ∈ s.remote.files ∨ x = q := by
  simp only [uploadStep]
  split_ifs <;> intro h <;>
    first
      | exact Or.inl h
      | (rcases List.mem_append.mp h with h3 | h3
         exacts [Or.inl h3, Or.inr (List.mem_singleton.mp h3)])

/-- The unchanged branch of the upload loop (src/index.ts lines 362-366):
when the working manifest already holds the local hash, the iteration
only records the path as unchanged. -/
theorem uploadStep_match (cfg : FtpDeployConfig) (faults : Faults)
    (lh : Manifest) (p : String) (s : EngineState)
    (hm : mlookup s.manifest p = some ((mlookup lh p).getD "")) :
    uploadStep cfg faults lh p s =
      { s with stats.unchanged := s.stats.unchanged ++ [p] } := by
  simp only [uploadStep]
  rw [if_pos hm]

/-- The upload branch (dry or real, src/index.ts lines 367-380): the path
is recorded as uploaded and the working manifest takes the local hash. -/
theorem uploadStep_self_upload (cfg : FtpDeployConfig) (faults : Faults)
    (lh : Manifest) (p : String) (s : EngineState)
    (hm : mlookup s.manifest p ≠ some ((mlookup lh p).getD ""))
    (hf : faults.uploadFails p = false) :
    p ∈ (uploadStep cfg faults lh p s).stats.uploaded ∧
    mlookup (uploadStep cfg faults lh p s).manifest p =
      some ((mlookup lh p).getD "") := by
  simp only [uploadStep]
  rw [if_neg hm]
  by_cases hd : cfg.dry_run = true
  · rw [if_pos hd]
    exact ⟨by simp, by simp [mlookup_minsert]⟩
  · rw [if_neg hd, if_neg (by simp [hf])]
    exact ⟨by simp, by simp [mlookup_minsert]⟩

theorem uploadStep_dry (cfg : FtpDeployConfig) (faults : Faults)
    (lh : Manifest) (q : String) (s : EngineState)
    (hd : cfg.dry_run = true) :
    (uploadStep cfg faults lh q s).remote = s.remote ∧
    (uploadStep cfg faults lh q s).trace = s.trace := by
  simp only [uploadStep]
  split_ifs <;> simp_all

/-! ### uploadFiles loop invariants -/

theorem uploadFiles_stats_removed (cfg : FtpDeployConfig) (faults : Faults)
    (lh : Manifest) (l : List (String × String)) :
    ∀ s : EngineState,
      (uploadFiles cfg faults lh l s).stats.removed = s.stats.removed := by
  induction l with
  | nil => intro s; rfl
  | cons e rest ih =>
      intro s
      rw [uploadFiles, ih, uploadStep_stats_removed]

theorem uploadFiles_remote_manifest (cfg : FtpDeployConfig) (faults : Faults)
    (lh : Manifest) (l : List (String × String)) :
    ∀ s : EngineState,
      (uploadFiles cfg faults lh l s).remote.manifest = s.remote.manifest := by
  induction l with
  | nil => intro s; rfl
  | cons e rest ih =>
      intro s
      rw [uploadFiles, ih, uploadStep_remote_manifest]

theorem uploadFiles_trace_removeFile (cfg : FtpDeployConfig)
    (faults : Faults) (lh : Manifest) (l : List (String × String)) :
    ∀ (s : EngineState) (p : String),
      (TransportOp.removeFile p ∈ (uploadFiles cfg faults lh l s).trace ↔
        TransportOp.removeFile p ∈ s.trace) := by
  induction l with
  | nil => intro s p; exact Iff.rfl
  | cons e rest ih =>
      intro s p
      rw [uploadFiles, ih, uploadStep_trace_removeFile]

theorem uploadFiles_files_mem (cfg : FtpDeployConfig) (faults : Faults)
    (lh : Manifest) (l : List (String × String)) :
    ∀ (s : EngineState) (x : String),
      x ∈ (uploadFiles cfg faults lh l s).remote.files →
        x ∈ s.remote.files ∨ x ∈ l.map Prod.fst := by
  induction l with
  | nil => intro s x h; exact Or.inl h
  | cons e rest ih =>
      intro s x h
      rw [uploadFiles] at h
      rcases ih _ x h with h2 | h2
      · rcases uploadStep_files_mem cfg faults lh e.1 s x h2 with h3 | h3
        · exact Or.inl h3
        · exact Or.inr (by simp [h3])
      · exact Or.inr (List.mem_cons_of_mem _ h2)

theorem uploadFiles_dry (cfg : FtpDeployConfig) (faults : Faults)
    (lh : Manifest) (l : List (String × String)) (hd : cfg.dry_run = true) :
    ∀ s : EngineState,
      (uploadFiles cfg faults lh l s).remote = s.remote ∧
      (uploadFiles cfg faults lh l s).trace = s.trace := by
  induction l with
  | nil => intro s; exact ⟨rfl, rfl⟩
  | cons e rest ih =>
      intro s
      rw [uploadFiles]
      obtain ⟨h1, h2⟩ := ih (uploadStep cfg faults lh e.1 s)
      obtain ⟨h3, h4⟩ := uploadStep_dry cfg faults lh e.1 s hd
      exact ⟨h1.trans h3, h2.trans h4⟩

/-- Observables of a path that is not a key of the processed list are
preserved by the upload loop. -/
theorem uploadFiles_not_key (cfg : FtpDeployConfig) (faults : Faults)
    (lh : Manifest) (l : List (String × String)) :
    ∀ (s : EngineState) (p : String), p ∉ l.map Prod.fst →
      mlookup (uploadFiles cfg faults lh l s).manifest p =
        mlookup s.manifest p ∧
      (p ∈ (uploadFiles cfg faults lh l s).stats.unchanged ↔
        p ∈ s.stats.unchanged) ∧
      (p ∈ (uploadFiles cfg faults lh l s).stats.uploaded ↔
        p ∈ s.stats.uploaded) ∧
      (TransportOp.upload p ∈ (uploadFiles cfg faults lh l s).trace ↔
        TransportOp.upload p ∈ s.trace) := by
  induction l with
  | nil => intro s p _; exact ⟨rfl, Iff.rfl, Iff.rfl, Iff.rfl⟩
  | cons e rest ih =>
      intro s p hp
      simp only [List.map_cons, List.mem_cons] at hp
      push_neg at hp
      obtain ⟨hpe, hprest⟩ := hp
      rw [uploadFiles]
      obtain ⟨i1, i2, i3, i4⟩ := ih (uploadStep cfg faults lh e.1 s) p hprest
      refine ⟨?_, ?_, ?_, ?_⟩
      · rw [i1, uploadStep_manifest_lookup_ne cfg faults lh e.1 s p hpe]
      · rw [i2, uploadStep_unchanged_mem_ne cfg faults lh e.1 s p hpe]
      · rw [i3, uploadStep_uploaded_mem_ne cfg faults lh e.1 s p hpe]
      · rw [i4, uploadStep_trace_upload_ne cfg faults lh e.1 s p hpe]

/-- A local file whose hash matches the working manifest entry ends up in
`unchanged`, is not added to `uploads`, triggers no upload event, and
leaves its manifest entry untouched. -/
theorem uploadFiles_match_mem (cfg : FtpDeployConfig) (faults : Faults)
    (lh : Manifest) (l : List (String × String)) :
    ∀ (s : EngineState) (p h : String), (p, h) ∈ l →
      (l.map Prod.fst).Nodup →
      mlookup lh p = some h →
      mlookup s.manifest p = some h →
      p ∈ (uploadFiles cfg faults lh l s).stats.unchanged ∧
      (p ∈ (uploadFiles cfg faults lh l s).stats.uploaded ↔
        p ∈ s.stats.uploaded) ∧
      (TransportOp.upload p ∈ (uploadFiles cfg faults lh l s).trace ↔
        TransportOp.upload p ∈ s.trace) ∧
      mlookup (uploadFiles cfg faults lh l s).manifest p = some h := by
  induction l with
  | nil => intro s p h hmem; cases hmem
  | cons e rest ih =>
      intro s p h hmem hnd hl hm
      simp only [List.map_cons, List.nodup_cons] at hnd
      rw [uploadFiles]
      rcases List.mem_cons.mp hmem with heq | hmem2
      · have hep : e.1 = p := by rw [← heq]
        have hrest : p ∉ rest.map Prod.fst := hep ▸ hnd.1
        have hgd : (mlookup lh p).getD "" = h := by rw [hl]; rfl
        have hstep : uploadStep cfg faults lh e.1 s =
            { s with stats.unchanged := s.stats.unchanged ++ [e.1] } := by
          apply uploadStep_match
          rw [hep, hgd]
          exact hm
        rw [hstep]
        obtain ⟨i1, i2, i3, i4⟩ := uploadFiles_not_key cfg faults lh rest
          { s with stats.unchanged := s.stats.unchanged ++ [e.1] } p hrest
        refine ⟨?_, ?_, ?_, ?_⟩
        · rw [i2]
          simp [hep]
        · rw [i3]
        · rw [i4]
        · rw [i1]
          exact hm
      · have hep : e.1 ≠ p := by
          intro hc
          exact hnd.1 (hc ▸ List.mem_map.mpr ⟨(p, h), hmem2, rfl⟩)
        have hm2 : mlookup (uploadStep cfg faults lh e.1 s).manifest p =
            some h := by
          rw [uploadStep_manifest_lookup_ne cfg faults lh e.1 s p
            (Ne.symm hep)]
          exact hm
        obtain ⟨i1, i2, i3, i4⟩ :=
          ih (uploadStep cfg faults lh e.1 s) p h hmem2 hnd.2 hl hm2
        refine ⟨i1, ?_, ?_, i4⟩
        · rw [i2, uploadStep_uploaded_mem_ne cfg faults lh e.1 s p
            (Ne.symm hep)]
        · rw [i3, uploadStep_trace_upload_ne cfg faults lh e.1 s p
            (Ne.symm hep)]

/-- A local file whose hash does not match the working manifest entry,
and whose upload succeeds, ends up in `uploads` with its manifest entry
set to the local hash. -/
theorem uploadFiles_upload_mem (cfg : FtpDeployConfig) (faults : Faults)
    (lh : Manifest) (l : List (String × String)) :
    ∀ (s : EngineState) (p h : String), (p, h) ∈ l →
      (l.map Prod.fst).Nodup →
      mlookup lh p = some h →
      mlookup s.manifest p ≠ some h →
      faults.uploadFails p = false →
      p ∈ (uploadFiles cfg faults lh l s).stats.uploaded ∧
      mlookup (uploadFiles cfg faults lh l s).manifest p = some h := by
  induction l with
  | nil => intro s p h hmem; cases hmem
  | cons e rest ih =>
      intro s p h hmem hnd hl hm hf
      simp only [List.map_cons, List.nodup_cons] at hnd
      rw [uploadFiles]
      rcases List.mem_cons.mp hmem with heq | hmem2
      · have hep : e.1 = p := by rw [← heq]
        have hrest : p ∉ rest.map Prod.fst := hep ▸ hnd.1
        have hgd : (mlookup lh p).getD "" = h := by rw [hl]; rfl
        have hstep := uploadStep_self_upload cfg faults lh p s
          (by rw [hgd]; exact hm) hf
        obtain ⟨i1, i2, i3, i4⟩ := uploadFiles_not_key cfg faults lh rest
          (uploadStep cfg faults lh p s) p hrest
        rw [hep]
        refine ⟨?_, ?_⟩
        · rw [i3]
          exact hstep.1
        · rw [i1, hstep.2, hgd]
      · have hep : e.1 ≠ p := by
          intro hc
          exact hnd.1 (hc ▸ List.mem_map.mpr ⟨(p, h), hmem2, rfl⟩)
        have hm2 : mlookup (uploadStep cfg faults lh e.1 s).manifest p ≠
            some h := by
          rw [uploadStep_manifest_lookup_ne cfg faults lh e.1 s p
            (Ne.symm hep)]
          exact hm
        exact ih (uploadStep cfg faults lh e.1 s) p h hmem2 hnd.2 hl hm2 hf

/-- When every local file already matches the working manifest, the
upload loop only appends all the paths to `unchanged`. -/
theorem uploadFiles_all_match (cfg : FtpDeployConfig) (faults : Faults)
    (lh : Manifest) (l : List (String × String)) :
    ∀ s : EngineState,
      (∀ e ∈ l, mlookup s.manifest e.1 = some ((mlookup lh e.1).getD "")) →
      uploadFiles cfg faults lh l s =
        { s with stats.unchanged := s.stats.unchanged ++ l.map Prod.fst } := by
  induction l with
  | nil =>
      intro s _
      show s = _
      simp
  | cons e rest ih =>
      intro s hall
      rw [uploadFiles, uploadStep_match cfg faults lh e.1 s
        (hall e (List.mem_cons_self _ _))]
      have h2 : ∀ e2 ∈ rest,
          mlookup ({ s with
            stats.unchanged := s.stats.unchanged ++ [e.1] } :
              EngineState).manifest e2.1 =
            some ((mlookup lh e2.1).getD "") :=
        fun e2 he2 => hall e2 (List.mem_cons_of_mem _ he2)
      rw [ih _ h2]
      simp

/-! ### markPreserved lemmas -/

theorem markPreserved_not_mem (l : List String) :
    ∀ (m : Manifest) (p : String), p ∉ l →
      mlookup (markPreserved l m) p = mlookup m p := by
  induction l with
  | nil => intro m p _; rfl
  | cons q rest ih =>
      intro m p hp
      simp only [List.mem_cons] at hp
      push_neg at hp
      rw [markPreserved, ih _ p hp.2]
      split_ifs
      · rw [mlookup_minsert]
        rw [if_neg hp.1]
      · rfl

theorem markPreserved_keeps (l : List String) :
    ∀ (m : Manifest) (p v : String), mlookup m p = some v → v ≠ "" →
      mlookup (markPreserved l m) p = some v := by
  induction l with
  | nil => intro m p v h _; exact h
  | cons q rest ih =>
      intro m p v h hv
      rw [markPreserved]
      by_cases hqp : q = p
      · subst hqp
        rw [if_neg (by simp [falsy_false_of_some m q v h hv])]
        exact ih m q v h hv
      · split_ifs
        · exact ih _ p v (by rw [mlookup_minsert, if_neg (fun hc => hqp hc.symm)]; exact h) hv
        · exact ih m p v h hv

theorem markPreserved_sets (l : List String) :
    ∀ (m : Manifest) (p : String), p ∈ l → mlookup m p = none →
      mlookup (markPreserved l m) p = some "preserved" := by
  induction l with
  | nil => intro m p h; cases h
  | cons q rest ih =>
      intro m p hmem hm
      rw [markPreserved]
      rcases List.mem_cons.mp hmem with heq | hmem2
      · subst heq
        rw [if_pos (by simp [falsy, hm])]
        have hset : mlookup (minsert m p "preserved") p = some "preserved" := by
          rw [mlookup_minsert, if_pos rfl]
        by_cases hr : p ∈ rest
        · exact markPreserved_keeps rest _ p "preserved" hset (by decide)
        · rw [markPreserved_not_mem rest _ p hr]
          exact hset
      · by_cases hqp : q = p
        · subst hqp
          rw [if_pos (by simp [falsy, hm])]
          exact markPreserved_keeps rest _ q "preserved"
            (by rw [mlookup_minsert, if_pos rfl]) (by decide)
        · split_ifs
          · exact ih _ p hmem2
              (by rw [mlookup_minsert, if_neg (fun hc => hqp hc.symm)]; exact hm)
          · exact ih m p hmem2 hm

/-! ### removeOrphans lemmas -/

theorem removeOrphans_uploaded_unchanged (cfg : FtpDeployConfig)
    (faults : Faults) (l : List String) :
    ∀ s : EngineState,
      (removeOrphans cfg faults l s).stats.uploaded = s.stats.uploaded ∧
      (removeOrphans cfg faults l s).stats.unchanged = s.stats.unchanged := by
  induction l with
  | nil => intro s; exact ⟨rfl, rfl⟩
  | cons q rest ih =>
      intro s
      rw [removeOrphans]
      split_ifs <;> exact ih _

theorem removeOrphans_removed (cfg : FtpDeployConfig) (faults : Faults)
    (l : List String)
    (h : ∀ q ∈ l, cfg.dry_run = true ∨ faults.removeFails q = false) :
    ∀ s : EngineState,
      (removeOrphans cfg faults l s).stats.removed = s.stats.removed ++ l := by
  induction l with
  | nil => intro s; simp [removeOrphans]
  | cons q rest ih =>
      intro s
      rw [removeOrphans]
      rcases h q (List.mem_cons_self _ _) with hd | hf
      · rw [if_pos hd,
          ih (fun x hx => h x (List.mem_cons_of_mem _ hx)) _]
        simp
      · split_ifs with h1 h2
        · rw [ih (fun x hx => h x (List.mem_cons_of_mem _ hx)) _]
          simp
        · rw [hf] at h2
          cases h2
        · rw [ih (fun x hx => h x (List.mem_cons_of_mem _ hx)) _]
          simp

theorem removeOrphans_manifest (cfg : FtpDeployConfig) (faults : Faults)
    (l : List String)
    (h : ∀ q ∈ l, cfg.dry_run = true ∨ faults.removeFails q = false) :
    ∀ (s : EngineState) (p : String),
      mlookup (removeOrphans cfg faults l s).manifest p =
        if p ∈ l then none else mlookup s.manifest p := by
  induction l with
  | nil => intro s p; simp [removeOrphans]
  | cons q rest ih =>
      intro s p
      have ih2 := ih (fun x hx => h x (List.mem_cons_of_mem _ hx))
      have key : ∀ s2 : EngineState,
          mlookup s2.manifest p = mlookup (merase s.manifest q) p →
          mlookup (removeOrphans cfg faults rest s2).manifest p =
            if p ∈ q :: rest then none else mlookup s.manifest p := by
        intro s2 hs2
        rw [ih2 s2 p, hs2, mlookup_merase]
        by_cases hpq : p = q
        · subst hpq
          simp
        · by_cases hpr : p ∈ rest <;> simp [hpq, hpr]
      rw [removeOrphans]
      rcases h q (List.mem_cons_self _ _) with hd | hf
      · rw [if_pos hd]
        apply key
        rfl
      · by_cases hd2 : cfg.dry_run = true
        · rw [if_pos hd2]
          apply key
          rfl
        · rw [if_neg hd2, if_neg (by simp [hf])]
          apply key
          rfl

theorem removeOrphans_files_real (cfg : FtpDeployConfig) (faults : Faults)
    (l : List String) (hd : cfg.dry_run = false)
    (h : ∀ q ∈ l, faults.removeFails q = false) :
    ∀ (s : EngineState) (x : String),
      (x ∈ (removeOrphans cfg faults l s).remote.files ↔
        (x ∈ s.remote.files ∧ x ∉ l)) := by
  induction l with
  | nil => intro s x; simp [removeOrphans]
  | cons q rest ih =>
      intro s x
      rw [removeOrphans, if_neg (by simp [hd]),
        if_neg (by simp [h q (List.mem_cons_self _ _)])]
      rw [ih (fun y hy => h y (List.mem_cons_of_mem _ hy)) _ x]
      constructor
      · rintro ⟨hx1, hx2⟩
        have := List.mem_filter.mp hx1
        refine ⟨this.1, ?_⟩
        simp only [List.mem_cons]
        rintro (hc | hc)
        · rw [hc] at this
          simp at this
        · exact hx2 hc
      · rintro ⟨hx1, hx2⟩
        simp only [List.mem_cons] at hx2
        push_neg at hx2
        exact ⟨List.mem_filter.mpr ⟨hx1, by simp [bne_iff_ne, hx2.1]⟩, hx2.2⟩

theorem removeOrphans_remote_dry (cfg : FtpDeployConfig) (faults : Faults)
    (l : List String) (hd : cfg.dry_run = true) :
    ∀ s : EngineState,
      (removeOrphans cfg faults l s).remote = s.remote ∧
      (removeOrphans cfg faults l s).trace = s.trace := by
  induction l with
  | nil => intro s; exact ⟨rfl, rfl⟩
  | cons q rest ih =>
      intro s
      rw [removeOrphans, if_pos hd]
      exact ih _

theorem removeOrphans_remote_manifest (cfg : FtpDeployConfig)
    (faults : Faults) (l : List String) :
    ∀ s : EngineState,
      (removeOrphans cfg faults l s).remote.manifest = s.remote.manifest := by
  induction l with
  | nil => intro s; rfl
  | cons q rest ih =>
      intro s
      rw [removeOrphans]
      split_ifs <;> exact ih _

theorem removeOrphans_trace (cfg : FtpDeployConfig) (faults : Faults)
    (l : List String) :
    ∀ (s : EngineState) (op : TransportOp),
      op ∈ (removeOrphans cfg faults l s).trace →
        op ∈ s.trace ∨ ∃ q ∈ l, op = TransportOp.removeFile q := by
  induction l with
  | nil => intro s op h; exact Or.inl h
  | cons q rest ih =>
      intro s op h
      rw [removeOrphans] at h
      split_ifs at h
      · rcases ih _ op h with h2 | ⟨x, hx1, hx2⟩
        · exact Or.inl h2
        · exact Or.inr ⟨x, List.mem_cons_of_mem _ hx1, hx2⟩
      · rcases ih _ op h with h2 | ⟨x, hx1, hx2⟩
        · exact Or.inl h2
        · exact Or.inr ⟨x, List.mem_cons_of_mem _ hx1, hx2⟩
      · rcases ih _ op h with h2 | ⟨x, hx1, hx2⟩
        · rcases List.mem_append.mp h2 with h3 | h3
          · exact Or.inl h3
          · exact Or.inr ⟨q, List.mem_cons_self _ _,
              List.mem_singleton.mp h3⟩
        · exact Or.inr ⟨x, List.mem_cons_of_mem _ hx1, hx2⟩

/-! ### Empty-directory sweep lemmas -/

theorem pruneGo_trace_removeDir (preserve : List String)
    (files : List String) :
    ∀ (fuel : Nat) (dirs : List String) (op : TransportOp),
      op ∈ (pruneGo preserve files fuel dirs).2 →
        ∃ d, op = TransportOp.removeDir d := by
  intro fuel
  induction fuel with
  | zero => intro dirs op h; cases h
  | succ n ih =>
      intro dirs op h
      rw [pruneGo] at h
      cases hf : dirs.find? (dirRemovable preserve files dirs) with
      | none => rw [hf] at h; cases h
      | some d =>
          rw [hf] at h
          rcases List.mem_cons.mp h with h2 | h2
          · exact ⟨d, h2⟩
          · exact ih _ op h2

theorem removeEmptyDirectories_preserves (cfg : FtpDeployConfig)
    (s : EngineState) :
    (removeEmptyDirectories cfg s).stats = s.stats ∧
    (removeEmptyDirectories cfg s).manifest = s.manifest ∧
    (removeEmptyDirectories cfg s).remote.files = s.remote.files ∧
    (removeEmptyDirectories cfg s).remote.manifest = s.remote.manifest := by
  unfold removeEmptyDirectories
  split_ifs <;> exact ⟨rfl, rfl, rfl, rfl⟩

theorem removeEmptyDirectories_dry (cfg : FtpDeployConfig)
    (s : EngineState) (hd : cfg.dry_run = true) :
    removeEmptyDirectories cfg s = s := by
  unfold removeEmptyDirectories
  rw [if_pos hd]

theorem removeEmptyDirectories_trace (cfg : FtpDeployConfig)
    (s : EngineState) (op : TransportOp) :
    op ∈ (removeEmptyDirectories cfg s).trace →
      op ∈ s.trace ∨ ∃ d, op = TransportOp.removeDir d := by
  unfold removeEmptyDirectories
  split_ifs
  · exact Or.inl
  · intro h
    rcases List.mem_append.mp h with h2 | h2
    · exact Or.inl h2
    · exact Or.inr (pruneGo_trace_removeDir _ _ _ _ op h2)

/-! ### clearFiles lemmas -/

theorem clearFiles_dry (rf : String → Bool) (l : List String) :
    ∀ s : EngineState,
      clearFiles true rf l s =
        { s with stats.removed := s.stats.removed ++ l } := by
  induction l with
  | nil => intro s; show s = _; simp
  | cons q rest ih =>
      intro s
      rw [clearFiles, if_pos rfl, ih]
      simp

theorem clearFiles_manifest (dryRun : Bool) (rf : String → Bool)
    (l : List String) :
    ∀ s : EngineState,
      (clearFiles dryRun rf l s).manifest = s.manifest ∧
      (clearFiles dryRun rf l s).remote.manifest = s.remote.manifest := by
  induction l with
  | nil => intro s; exact ⟨rfl, rfl⟩
  | cons q rest ih =>
      intro s
      rw [clearFiles]
      split_ifs <;> exact ih _

theorem clearFiles_real_noFault (rf : String → Bool) (l : List String)
    (h : ∀ q ∈ l, rf q = false) :
    ∀ s : EngineState,
      (clearFiles false rf l s).stats.removed = s.stats.removed ++ l ∧
      (clearFiles false rf l s).stats.uploaded = s.stats.uploaded ∧
      (clearFiles false rf l s).stats.unchanged = s.stats.unchanged ∧
      (clearFiles false rf l s).stats.errors = s.stats.errors := by
  induction l with
  | nil => intro s; exact ⟨by simp [clearFiles], rfl, rfl, rfl⟩
  | cons q rest ih =>
      intro s
      rw [clearFiles, if_neg (by simp),
        if_neg (by simp [h q (List.mem_cons_self _ _)])]
      obtain ⟨i1, i2, i3, i4⟩ :=
        ih (fun x hx => h x (List.mem_cons_of_mem _ hx)) _
      exact ⟨by rw [i1]; simp, i2, i3, i4⟩

theorem removeOrphans_manifest_not_mem (cfg : FtpDeployConfig)
    (faults : Faults) (l : List String) :
    ∀ (s : EngineState) (p : String), p ∉ l →
      mlookup (removeOrphans cfg faults l s).manifest p =
        mlookup s.manifest p := by
  induction l with
  | nil => intro s p _; rfl
  | cons q rest ih =>
      intro s p hp
      simp only [List.mem_cons] at hp
      push_neg at hp
      rw [removeOrphans]
      split_ifs
      · rw [ih _ p hp.2]
        show mlookup (merase s.manifest q) p = _
        rw [mlookup_merase, if_neg hp.1]
      · exact ih _ p hp.2
      · rw [ih _ p hp.2]
        show mlookup (merase s.manifest q) p = _
        rw [mlookup_merase, if_neg hp.1]

/-! ### cleanPhase lemmas -/

theorem cleanPhase_stats_ul (cfg : FtpDeployConfig) (faults : Faults)
    (remoteFiles : List String) (lhm : Manifest) (s : EngineState) :
    (cleanPhase cfg faults remoteFiles lhm s).stats.uploaded =
      s.stats.uploaded ∧
    (cleanPhase cfg faults remoteFiles lhm s).stats.unchanged =
      s.stats.unchanged := by
  simp only [cleanPhase]
  split_ifs
  · exact ⟨(removeOrphans_uploaded_unchanged _ _ _ _).1,
      (removeOrphans_uploaded_unchanged _ _ _ _).2⟩
  · rw [(removeEmptyDirectories_preserves _ _).1]
    exact ⟨(removeOrphans_uploaded_unchanged _ _ _ _).1,
      (removeOrphans_uploaded_unchanged _ _ _ _).2⟩

theorem cleanPhase_removed (cfg : FtpDeployConfig) (faults : Faults)
    (remoteFiles : List String) (lhm : Manifest) (s : EngineState)
    (h : ∀ q ∈ (remoteFiles.filter (fun p => falsy (mlookup lhm p))).filter
        (fun p => !shouldPreserve cfg.preserve p),
      cfg.dry_run = true ∨ faults.removeFails q = false) :
    (cleanPhase cfg faults remoteFiles lhm s).stats.removed =
      s.stats.removed ++
        (remoteFiles.filter (fun p => falsy (mlookup lhm p))).filter
          (fun p => !shouldPreserve cfg.preserve p) := by
  simp only [cleanPhase]
  split_ifs
  · rw [removeOrphans_removed cfg faults _ h _]
  · rw [(removeEmptyDirectories_preserves _ _).1,
      removeOrphans_removed cfg faults _ h _]

/-- A path with a truthy local-hash entry is untouched by the clean
phase's manifest bookkeeping. -/
theorem cleanPhase_manifest_local (cfg : FtpDeployConfig) (faults : Faults)
    (remoteFiles : List String) (lhm : Manifest) (s : EngineState)
    (p : String) (hp : falsy (mlookup lhm p) = false) :
    mlookup (cleanPhase cfg faults remoteFiles lhm s).manifest p =
      mlookup s.manifest p := by
  have hnotorph : p ∉ remoteFiles.filter (fun q => falsy (mlookup lhm q)) := by
    intro hc
    have := List.of_mem_filter hc
    rw [hp] at this
    cases this
  have h1 : p ∉ (remoteFiles.filter (fun q => falsy (mlookup lhm q))).filter
      (fun q => !shouldPreserve cfg.preserve q) :=
    fun hc => hnotorph (List.mem_of_mem_filter hc)
  have h2 : p ∉ (remoteFiles.filter (fun q => falsy (mlookup lhm q))).filter
      (fun q => shouldPreserve cfg.preserve q) :=
    fun hc => hnotorph (List.mem_of_mem_filter hc)
  simp only [cleanPhase]
  split_ifs
  · rw [removeOrphans_manifest_not_mem cfg faults _ _ p h1]
    exact markPreserved_not_mem _ _ p h2
  · rw [(removeEmptyDirectories_preserves _ _).2.1,
      removeOrphans_manifest_not_mem cfg faults _ _ p h1]
    exact markPreserved_not_mem _ _ p h2

theorem cleanPhase_trace (cfg : FtpDeployConfig) (faults : Faults)
    (remoteFiles : List String) (lhm : Manifest) (s : EngineState)
    (op : TransportOp) :
    op ∈ (cleanPhase cfg faults remoteFiles lhm s).trace →
      op ∈ s.trace ∨
      (∃ q ∈ (remoteFiles.filter (fun p => falsy (mlookup lhm p))).filter
          (fun p => !shouldPreserve cfg.preserve p),
        op = TransportOp.removeFile q) ∨
      (∃ d, op = TransportOp.removeDir d) := by
  simp only [cleanPhase]
  split_ifs
  · intro h
    rcases removeOrphans_trace cfg faults _ _ op h with h2 | h2
    · exact Or.inl h2
    · exact Or.inr (Or.inl h2)
  · intro h
    rcases removeEmptyDirectories_trace cfg _ op h with h2 | h2
    · rcases removeOrphans_trace cfg faults _ _ op h2 with h3 | h3
      · exact Or.inl h3
      · exact Or.inr (Or.inl h3)
    · exact Or.inr (Or.inr h2)

theorem cleanPhase_remote_manifest (cfg : FtpDeployConfig) (faults : Faults)
    (remoteFiles : List String) (lhm : Manifest) (s : EngineState) :
    (cleanPhase cfg faults remoteFiles lhm s).remote.manifest =
      s.remote.manifest := by
  simp only [cleanPhase]
  split_ifs
  · exact removeOrphans_remote_manifest cfg faults _ _
  · rw [(removeEmptyDirectories_preserves _ _).2.2.2]
    exact removeOrphans_remote_manifest cfg faults _ _

/-- A preserved orphan lacking a manifest entry gets the sentinel. -/
theorem cleanPhase_manifest_preserved (cfg : FtpDeployConfig)
    (faults : Faults) (remoteFiles : List String) (lhm : Manifest)
    (s : EngineState) (q : String)
    (horph : q ∈ remoteFiles.filter (fun p => falsy (mlookup lhm p)))
    (hpres : shouldPreserve cfg.preserve q = true)
    (hnone : mlookup s.manifest q = none) :
    mlookup (cleanPhase cfg faults remoteFiles lhm s).manifest q =
      some "preserved" := by
  have hq1 : q ∉ (remoteFiles.filter (fun p => falsy (mlookup lhm p))).filter
      (fun p => !shouldPreserve cfg.preserve p) := by
    intro hc
    have := List.of_mem_filter hc
    rw [hpres] at this
    cases this
  have hq2 : q ∈ (remoteFiles.filter (fun p => falsy (mlookup lhm p))).filter
      (fun p => shouldPreserve cfg.preserve p) :=
    List.mem_filter.mpr ⟨horph, hpres⟩
  simp only [cleanPhase]
  split_ifs
  · rw [removeOrphans_manifest_not_mem cfg faults _ _ q hq1]
    exact markPreserved_sets _ _ q hq2 hnone
  · rw [(removeEmptyDirectories_preserves _ _).2.1,
      removeOrphans_manifest_not_mem cfg faults _ _ q hq1]
    exact markPreserved_sets _ _ q hq2 hnone

/-- After a successful deletion, the deleted path's manifest entry is
gone. -/
theorem cleanPhase_manifest_removed (cfg : FtpDeployConfig)
    (faults : Faults) (remoteFiles : List String) (lhm : Manifest)
    (s : EngineState) (q : String)
    (h : ∀ x ∈ (remoteFiles.filter (fun p => falsy (mlookup lhm p))).filter
        (fun p => !shouldPreserve cfg.preserve p),
      cfg.dry_run = true ∨ faults.removeFails x = false)
    (hq : q ∈ (remoteFiles.filter (fun p => falsy (mlookup lhm p))).filter
        (fun p => !shouldPreserve cfg.preserve p)) :
    mlookup (cleanPhase cfg faults remoteFiles lhm s).manifest q = none := by
  simp only [cleanPhase]
  split_ifs
  · rw [removeOrphans_manifest cfg faults _ h _ q, if_pos hq]
  · rw [(removeEmptyDirectories_preserves _ _).2.1,
      removeOrphans_manifest cfg faults _ h _ q, if_pos hq]

theorem cleanPhase_dry (cfg : FtpDeployConfig) (faults : Faults)
    (remoteFiles : List String) (lhm : Manifest) (s : EngineState)
    (hd : cfg.dry_run = true) :
    (cleanPhase cfg faults remoteFiles lhm s).remote = s.remote ∧
    (cleanPhase cfg faults remoteFiles lhm s).trace = s.trace := by
  simp only [cleanPhase]
  split_ifs
  · exact ⟨(removeOrphans_remote_dry cfg faults _ hd _).1,
      (removeOrphans_remote_dry cfg faults _ hd _).2⟩
  · rw [removeEmptyDirectories_dry cfg _ hd]
    exact ⟨(removeOrphans_remote_dry cfg faults _ hd _).1,
      (removeOrphans_remote_dry cfg faults _ hd _).2⟩

theorem clearDestination_dry (cfg : FtpDeployConfig) (faults : Faults)
    (s : EngineState) (hd : cfg.dry_run = true) :
    (clearDestination cfg faults s).remote = s.remote ∧
    (clearDestination cfg faults s).trace = s.trace := by
  unfold clearDestination
  rw [removeEmptyDirectories_dry cfg _ hd, hd, clearFiles_dry]
  exact ⟨rfl, rfl⟩

theorem stage2_dry (cfg : FtpDeployConfig) (faults : Faults)
    (rs0 : RemoteState) (hd : cfg.dry_run = true) :
    (stage2 cfg faults rs0).remote = rs0 ∧
    (stage2 cfg faults rs0).trace = [] := by
  unfold stage2
  split_ifs
  · exact ⟨(clearDestination_dry cfg faults _ hd).1,
      (clearDestination_dry cfg faults _ hd).2⟩
  · exact ⟨rfl, rfl⟩

/-- The two `stage4` shapes, with the `let` bindings spelled out. -/
theorem stage4_eq (cfg : FtpDeployConfig) (faults : Faults) (lh : Manifest)
    (rs : RemoteState) :
    stage4 cfg faults lh rs =
      if cfg.clean_remote_files && !cfg.clear_destination then
        cleanPhase cfg faults (listRemoteFiles (stage2 cfg faults rs).remote)
          lh (uploadFiles cfg faults lh lh (stage2 cfg faults rs))
      else uploadFiles cfg faults lh lh (stage2 cfg faults rs) := rfl

theorem stage4_dry (cfg : FtpDeployConfig) (faults : Faults)
    (lh : Manifest) (rs : RemoteState) (hd : cfg.dry_run = true) :
    (stage4 cfg faults lh rs).remote = rs ∧
    (stage4 cfg faults lh rs).trace = [] := by
  rw [stage4_eq]
  have h2 := stage2_dry cfg faults rs hd
  have h3 := uploadFiles_dry cfg faults lh lh hd (stage2 cfg faults rs)
  split_ifs
  · have h4 := cleanPhase_dry cfg faults
      (listRemoteFiles (stage2 cfg faults rs).remote) lh
      (uploadFiles cfg faults lh lh (stage2 cfg faults rs)) hd
    exact ⟨h4.1.trans (h3.1.trans h2.1), h4.2.trans (h3.2.trans h2.2)⟩
  · exact ⟨h3.1.trans h2.1, h3.2.trans h2.2⟩

/-! ### Dry-run versus real-run equivalence (fault-free transport) -/

theorem loadRemoteHashes_congr (faults : Faults) (rs rs2 : RemoteState)
    (h : rs.manifest = rs2.manifest) :
    loadRemoteHashes faults rs = loadRemoteHashes faults rs2 := by
  unfold loadRemoteHashes sizeProbe remoteFileExists
  rw [h]

theorem DeployStats.eq_of_fields {a b : DeployStats}
    (h1 : a.uploaded = b.uploaded) (h2 : a.removed = b.removed)
    (h3 : a.unchanged = b.unchanged) (h4 : a.errors = b.errors) : a = b := by
  cases a
  cases b
  cases h1
  cases h2
  cases h3
  cases h4
  rfl

theorem uploadStep_dry_real (cfg cfg2 : FtpDeployConfig)
    (hdD : cfg.dry_run = true) (hdR : cfg2.dry_run = false)
    (lh : Manifest) (p : String) (sD sR : EngineState)
    (hst : sD.stats = sR.stats) (hm : sD.manifest = sR.manifest) :
    (uploadStep cfg noFaults lh p sD).stats =
      (uploadStep cfg2 noFaults lh p sR).stats ∧
    (uploadStep cfg noFaults lh p sD).manifest =
      (uploadStep cfg2 noFaults lh p sR).manifest := by
  by_cases hcond : mlookup sR.manifest p = some ((mlookup lh p).getD "") <;>
    simp [uploadStep, hm, hst, hdD, hdR, hcond, noFaults]

theorem uploadFiles_dry_real (cfg cfg2 : FtpDeployConfig)
    (hdD : cfg.dry_run = true) (hdR : cfg2.dry_run = false)
    (lh : Manifest) (l : List (String × String)) :
    ∀ sD sR : EngineState, sD.stats = sR.stats → sD.manifest = sR.manifest →
      (uploadFiles cfg noFaults lh l sD).stats =
        (uploadFiles cfg2 noFaults lh l sR).stats ∧
      (uploadFiles cfg noFaults lh l sD).manifest =
        (uploadFiles cfg2 noFaults lh l sR).manifest := by
  induction l with
  | nil => intro sD sR hst hm; exact ⟨hst, hm⟩
  | cons e rest ih =>
      intro sD sR hst hm
      rw [uploadFiles, uploadFiles]
      obtain ⟨h1, h2⟩ :=
        uploadStep_dry_real cfg cfg2 hdD hdR lh e.1 sD sR hst hm
      exact ih _ _ h1 h2

theorem removeOrphans_dry_real (cfg cfg2 : FtpDeployConfig)
    (hdD : cfg.dry_run = true) (hdR : cfg2.dry_run = false)
    (l : List String) :
    ∀ sD sR : EngineState, sD.stats = sR.stats → sD.manifest = sR.manifest →
      (removeOrphans cfg noFaults l sD).stats =
        (removeOrphans cfg2 noFaults l sR).stats ∧
      (removeOrphans cfg noFaults l sD).manifest =
        (removeOrphans cfg2 noFaults l sR).manifest := by
  induction l with
  | nil => intro sD sR hst hm; exact ⟨hst, hm⟩
  | cons q rest ih =>
      intro sD sR hst hm
      rw [removeOrphans, removeOrphans, if_pos hdD, if_neg (by simp [hdR]),
        if_neg (by simp [noFaults])]
      exact ih _ _ (by simp [hst]) (by simp [hm])

theorem cleanPhase_dry_real (cfg cfg2 : FtpDeployConfig)
    (hdD : cfg.dry_run = true) (hdR : cfg2.dry_run = false)
    (hpres : cfg.preserve = cfg2.preserve)
    (remoteFiles : List String) (lhm : Manifest)
    (sD sR : EngineState) (hst : sD.stats = sR.stats)
    (hm : sD.manifest = sR.manifest) :
    (cleanPhase cfg noFaults remoteFiles lhm sD).stats =
      (cleanPhase cfg2 noFaults remoteFiles lhm sR).stats ∧
    (cleanPhase cfg noFaults remoteFiles lhm sD).manifest =
      (cleanPhase cfg2 noFaults remoteFiles lhm sR).manifest := by
  simp only [cleanPhase, hpres]
  split_ifs
  · exact removeOrphans_dry_real cfg cfg2 hdD hdR _ _ _
      (by simpa using hst) (by simp [hm])
  · rw [(removeEmptyDirectories_preserves cfg _).1,
      (removeEmptyDirectories_preserves cfg2 _).1,
      (removeEmptyDirectories_preserves cfg _).2.1,
      (removeEmptyDirectories_preserves cfg2 _).2.1]
    exact removeOrphans_dry_real cfg cfg2 hdD hdR _ _ _
      (by simpa using hst) (by simp [hm])

theorem clearDestination_dry_real (cfg cfg2 : FtpDeployConfig)
    (hdD : cfg.dry_run = true) (hdR : cfg2.dry_run = false)
    (s : EngineState) :
    (clearDestination cfg noFaults s).stats =
      (clearDestination cfg2 noFaults s).stats ∧
    (clearDestination cfg noFaults s).manifest =
      (clearDestination cfg2 noFaults s).manifest := by
  unfold clearDestination
  rw [removeEmptyDirectories_dry cfg _ hdD, hdD,
    (removeEmptyDirectories_preserves cfg2 _).1,
    (removeEmptyDirectories_preserves cfg2 _).2.1, hdR, clearFiles_dry]
  obtain ⟨r1, r2, r3, r4⟩ := clearFiles_real_noFault noFaults.removeFails
    (listRemoteFiles s.remote) (fun q _ => rfl) s
  constructor
  · apply DeployStats.eq_of_fields
    · rw [r2]
    · rw [r1]
    · rw [r3]
    · rw [r4]
  · show s.manifest =
      (clearFiles false noFaults.removeFails (listRemoteFiles s.remote) s).manifest
    exact ((clearFiles_manifest false noFaults.removeFails
      (listRemoteFiles s.remote) s).1).symm

theorem stage2_dry_real (cfg cfg2 : FtpDeployConfig)
    (hdD : cfg.dry_run = true) (hdR : cfg2.dry_run = false)
    (hclear : cfg.clear_destination = cfg2.clear_destination)
    (rs0 : RemoteState) :
    (stage2 cfg noFaults rs0).stats = (stage2 cfg2 noFaults rs0).stats ∧
    (stage2 cfg noFaults rs0).manifest =
      (stage2 cfg2 noFaults rs0).manifest ∧
    (stage2 cfg noFaults rs0).remote.manifest = rs0.manifest ∧
    (stage2 cfg2 noFaults rs0).remote.manifest = rs0.manifest := by
  have hrmD : ∀ s : EngineState,
      (clearDestination cfg noFaults s).remote.manifest =
        s.remote.manifest := by
    intro s
    rw [(clearDestination_dry cfg noFaults s hdD).1]
  have hrmR : ∀ s : EngineState,
      (clearDestination cfg2 noFaults s).remote.manifest =
        s.remote.manifest := by
    intro s
    unfold clearDestination
    rw [(removeEmptyDirectories_preserves cfg2 _).2.2.2,
      (clearFiles_manifest cfg2.dry_run noFaults.removeFails _ _).2]
  simp only [stage2, hclear]
  split_ifs with hc
  · refine ⟨?_, ?_, ?_, ?_⟩
    · show (clearDestination cfg noFaults _).stats =
        (clearDestination cfg2 noFaults _).stats
      exact (clearDestination_dry_real cfg cfg2 hdD hdR _).1
    · show loadRemoteHashes noFaults (clearDestination cfg noFaults _).remote =
        loadRemoteHashes noFaults (clearDestination cfg2 noFaults _).remote
      apply loadRemoteHashes_congr
      rw [hrmD, hrmR]
    · exact hrmD _
    · exact hrmR _
  · exact ⟨rfl, rfl, rfl, rfl⟩

theorem stage2_no_clear (cfg : FtpDeployConfig) (faults : Faults)
    (rs0 : RemoteState) (hc : cfg.clear_destination = false) :
    stage2 cfg faults rs0 =
      { manifest := loadRemoteHashes faults rs0, remote := rs0 } := by
  unfold stage2
  simp [hc]

theorem finalize_stats_noSave (cfg : FtpDeployConfig) (faults : Faults)
    (s : EngineState) (hf : faults.saveFails = false) :
    (finalize cfg faults s).stats = s.stats := by
  unfold finalize
  split_ifs with h1 h2
  · rfl
  · rw [hf] at h2
    cases h2
  · rfl

theorem stage4_dry_real (cfg cfg2 : FtpDeployConfig)
    (hdD : cfg.dry_run = true) (hdR : cfg2.dry_run = false)
    (hclear : cfg.clear_destination = cfg2.clear_destination)
    (hclean : cfg.clean_remote_files = cfg2.clean_remote_files)
    (hpres : cfg.preserve = cfg2.preserve)
    (lh : Manifest) (rs : RemoteState) :
    (stage4 cfg noFaults lh rs).stats = (stage4 cfg2 noFaults lh rs).stats ∧
    (stage4 cfg noFaults lh rs).manifest =
      (stage4 cfg2 noFaults lh rs).manifest := by
  rw [stage4_eq, stage4_eq]
  have hs2 := stage2_dry_real cfg cfg2 hdD hdR hclear rs
  have hup := uploadFiles_dry_real cfg cfg2 hdD hdR lh lh
    (stage2 cfg noFaults rs) (stage2 cfg2 noFaults rs) hs2.1 hs2.2.1
  have hcond : (cfg.clean_remote_files && !cfg.clear_destination) =
      (cfg2.clean_remote_files && !cfg2.clear_destination) := by
    rw [hclear, hclean]
  rw [hcond]
  split_ifs with hcl
  · simp only [Bool.and_eq_true, Bool.not_eq_eq_eq_not, Bool.not_true] at hcl
    have hc2 : cfg2.clear_destination = false := by
      simpa using hcl.2
    have hc1 : cfg.clear_destination = false := hclear.trans hc2
    have hrem : listRemoteFiles (stage2 cfg noFaults rs).remote =
        listRemoteFiles (stage2 cfg2 noFaults rs).remote := by
      rw [stage2_no_clear cfg noFaults rs hc1,
        stage2_no_clear cfg2 noFaults rs hc2]
    rw [hrem]
    exact cleanPhase_dry_real cfg cfg2 hdD hdR hpres _ _ _ _ hup.1 hup.2
  · exact hup

theorem finalize_trace (cfg : FtpDeployConfig) (faults : Faults)
    (s : EngineState) (op : TransportOp) :
    op ∈ (finalize cfg faults s).trace →
      op ∈ s.trace ∨ op = TransportOp.saveManifest := by
  unfold finalize
  split_ifs <;> intro h
  · exact Or.inl h
  · exact Or.inl h
  · rcases List.mem_append.mp h with h2 | h2
    · exact Or.inl h2
    · exact Or.inr (List.mem_singleton.mp h2)

theorem finalize_stats_lists (cfg : FtpDeployConfig) (faults : Faults)
    (s : EngineState) :
    (finalize cfg faults s).stats.uploaded = s.stats.uploaded ∧
    (finalize cfg faults s).stats.removed = s.stats.removed ∧
    (finalize cfg faults s).stats.unchanged = s.stats.unchanged ∧
    (finalize cfg faults s).manifest = s.manifest ∧
    (finalize cfg faults s).remote.files = s.remote.files := by
  unfold finalize
  split_ifs <;> exact ⟨rfl, rfl, rfl, rfl, rfl⟩

theorem finalize_saves (cfg : FtpDeployConfig) (faults : Faults)
    (s : EngineState) (hd : cfg.dry_run = false)
    (hf : faults.saveFails = false) :
    (finalize cfg faults s).remote.manifest = some s.manifest := by
  unfold finalize
  rw [if_neg (by simp [hd]), if_neg (by simp [hf])]

theorem deploy_eq_finalize (cfg : FtpDeployConfig) (faults : Faults)
    (lh : Manifest) (rs0 : RemoteState) (hc : faults.connectFails = false) :
    deploy cfg faults lh rs0 =
      finalize cfg faults (stage4 cfg faults lh rs0) := by
  unfold deploy
  rw [if_neg (by simp [hc])]

/-! ### C1 — clear-destination runs reuse the surviving manifest -/

/-- C1 (failing input): one local file `a.txt` with hash `h1`, the same
file present remotely, and a prior manifest mapping `a.txt` to `h1`;
`clear_destination = true`.  `clearDestination` deletes the remote file
but not the manifest, `loadRemoteHashes` then reloads the old manifest
(the run does not use an empty baseline), so `a.txt` is classified
unchanged and never re-uploaded: the run ends with `a.txt` deleted from
the remote yet absent from `uploads`, contradicting the claim that every
local file is uploaded after a clear-destination run. -/
theorem clear_destination_stale_manifest :
    (deploy cfgClear noFaults [("a.txt", "h1")] rsClear).stats.removed =
      ["a.txt"] ∧
    (deploy cfgClear noFaults [("a.txt", "h1")] rsClear).stats.uploaded = [] ∧
    (deploy cfgClear noFaults [("a.txt", "h1")] rsClear).stats.unchanged =
      ["a.txt"] ∧
    (deploy cfgClear noFaults [("a.txt", "h1")] rsClear).stats.errors = [] ∧
    (deploy cfgClear noFaults [("a.txt", "h1")] rsClear).remote.files = [] ∧
    (deploy cfgClear noFaults [("a.txt", "h1")] rsClear).remote.manifest =
      some [("a.txt", "h1")] := by
  refine ⟨rfl, rfl, rfl, rfl, rfl, rfl⟩

/-! ### C3 — error raised when all retry attempts fail -/

/-- C3 (counterexample): an operation that fails with a connection error
on all 3 attempts, with reconnection enabled and succeeding.  The error
raised by `executeWithRetry` is the final attempt's own connection
error, not the generic exhaustion error of src/index.ts line 115 (that
line is unreachable for any positive attempt budget: on the last
attempt, `attempt < retries` fails and the `else` branch rethrows the
operation's error). -/
theorem retry_exhaustion_counterexample :
    executeWithRetry (α := Nat) true 3
        (fun _ => .error (.conn "ECONNRESET")) (fun _ => .ok ()) =
      .error (.conn "ECONNRESET") ∧
    FtpError.conn "ECONNRESET" ≠ retryExhaustedError 3 := by
  exact ⟨rfl, by decide⟩

/-- C3 (amended): when a transient (connection-classified) error occurs
on every attempt and reconnection is enabled, `executeWithRetry` raises
the final attempt's own error — not the generic
"operation failed after N attempts" error, which is unreachable for any
`maxAttempts ≥ 1`. -/
theorem retry_exhaustion_last_error (retries : Nat) (hr : 1 ≤ retries)
    (msgs : Nat → String) :
    executeWithRetry (α := Nat) true retries
        (fun a => .error (.conn (msgs a))) (fun _ => .ok ()) =
      .error (.conn (msgs retries)) := by
  unfold executeWithRetry
  suffices h : ∀ rem attempt, 1 ≤ rem →
      retryGo (α := Nat) true retries
          (fun a => .error (.conn (msgs a))) (fun _ => .ok ()) attempt rem =
        .error (.conn (msgs (attempt + rem - 1))) by
    have h2 := h retries 1 hr
    have h3 : 1 + retries - 1 = retries := by omega
    rw [h3] at h2
    exact h2
  intro rem
  induction rem with
  | zero => intro attempt h; omega
  | succ r ih =>
      intro attempt _
      by_cases hr1 : 1 ≤ r
      · have hd : decide (1 ≤ r) = true := by simpa using hr1
        simp only [retryGo, isConnectionError, hd, Bool.and_self,
          Bool.and_true, Bool.true_and, if_true]
        have h2 := ih (attempt + 1) hr1
        have h3 : attempt + 1 + r - 1 = attempt + (r + 1) - 1 := by omega
        rw [h3] at h2
        exact h2
      · have hr0 : r = 0 := by omega
        subst hr0
        simp [retryGo, isConnectionError]

/-- C3 (witness for the amended theorem): three attempts, distinct error
messages per attempt; the raised error carries attempt 3's message. -/
theorem retry_exhaustion_last_error_witness :
    executeWithRetry (α := Nat) true 3
        (fun a => .error (.conn ("attempt " ++ toString a)))
        (fun _ => .ok ()) =
      .error (.conn "attempt 3") :=
  retry_exhaustion_last_error 3 (by decide) (fun a => "attempt " ++ toString a)

/-! ### C9 — manifest path and its exclusion from listings -/

/-- C9 (counterexample): with remote root `/site`, the persisted manifest
path is `/site/.deploy_ftp_hash.json`, not
`/site/.deploy_hash_manifest.json` as the claim states. -/
theorem manifest_path_counterexample :
    remoteHashFile cfgClear = "/site/.deploy_ftp_hash.json" ∧
    remoteHashFile cfgClear ≠ "/site/.deploy_hash_manifest.json" := by
  exact ⟨rfl, by decide⟩

/-- C9 (amended): the persisted manifest lives at the fixed path
`<remote_root>/.deploy_ftp_hash.json` inside the remote root, and files
bearing that name are excluded from every remote listing (hence from all
diffing built on the listing: clear-destination, clean-mode orphan
computation). -/
theorem manifest_location_and_exclusion :
    hashFileName = ".deploy_ftp_hash.json" ∧
    (∀ cfg : FtpDeployConfig, cfg.remote_dir = "/site" →
      remoteHashFile cfg = "/site/.deploy_ftp_hash.json") ∧
    (∀ (rs : RemoteState) (p : String),
      p ∈ listRemoteFiles rs → fileName p ≠ hashFileName) := by
  refine ⟨rfl, ?_, ?_⟩
  · intro cfg h
    show posixJoin cfg.remote_dir hashFileName = _
    rw [h]
    decide
  · intro rs p hp
    have := List.of_mem_filter hp
    exact bne_iff_ne.mp this

/-- C9 witness: the exclusion applied to a concrete remote state that
contains a file named like the manifest. -/
theorem manifest_location_witness :
    fileName "sub/.deploy_ftp_hash.json" ≠ hashFileName ∨
    "sub/.deploy_ftp_hash.json" ∉
      listRemoteFiles { files := ["a.txt", "sub/.deploy_ftp_hash.json"] } := by
  by_cases h : "sub/.deploy_ftp_hash.json" ∈
      listRemoteFiles { files := ["a.txt", "sub/.deploy_ftp_hash.json"] }
  · exact Or.inl (manifest_location_and_exclusion.2.2 _ _ h)
  · exact Or.inr h

/-! ### C7 — the preserve matcher -/

/-- C7: `shouldPreserve` holds exactly when some preserve entry, after
separator normalization and stripping of a trailing slash, is byte-equal
to the normalized path or is a `/`-terminated prefix of it; matching is
segment-based (`"uploads"` does not match `"uploads2/file"`, while
`"uploads/"` matches `"uploads/f.txt"` and a backslashed entry is
normalized); the empty preserve set never matches. -/
theorem shouldPreserve_spec :
    (∀ (preserve : List String) (p : String),
      shouldPreserve preserve p = true ↔
        ∃ e ∈ preserve,
          normalizeSlashes p = cleanPreservePath e ∨
          (cleanPreservePath e ++ "/").data <+: (normalizeSlashes p).data) ∧
    shouldPreserve ["uploads"] "uploads2/file" = false ∧
    shouldPreserve ["uploads/"] "uploads/f.txt" = true ∧
    shouldPreserve ["a\\b"] "a/b/c" = true ∧
    (∀ p : String, shouldPreserve [] p = false) := by
  refine ⟨?_, by decide, by decide, by decide, fun p => rfl⟩
  intro preserve p
  simp [shouldPreserve, List.any_eq_true, Bool.or_eq_true, beq_iff_eq,
    strStartsWith, List.isPrefixOf_iff_prefix]

/-! ### C2 — deploy never raises, captures failures, always closes -/

/-- C2: the `deploy()` call is total — whatever the transport faults, it
returns the stats record with the connection closed on every exit path
(the `finally` of src/index.ts lines 457-460); a connection-establishment
failure is captured as the sole `errors` entry, and a manifest-save
failure (escaping to the outer catch) is appended to `errors`, the stats
still being returned. -/
theorem deploy_never_raises_and_closes (cfg : FtpDeployConfig)
    (faults : Faults) (lh : Manifest) (rs : RemoteState) :
    (deploy cfg faults lh rs).closed = true ∧
    (faults.connectFails = true →
      (deploy cfg faults lh rs).stats.errors =
        ["Critical error: connection failed"]) ∧
    (faults.connectFails = false → cfg.dry_run = false →
      faults.saveFails = true →
      "Critical error: failed to save manifest" ∈
        (deploy cfg faults lh rs).stats.errors) := by
  by_cases hc : faults.connectFails = true
  · refine ⟨?_, ?_, ?_⟩
    · simp [deploy, hc]
    · intro _
      simp [deploy, hc]
    · intro h
      exact absurd hc (by simp [h])
  · have hc2 : faults.connectFails = false := by
      simpa using hc
    refine ⟨?_, ?_, ?_⟩
    · simp only [deploy, hc2, Bool.false_eq_true, if_false]
      unfold finalize
      split_ifs <;> rfl
    · intro h
      exact absurd h hc
    · intro _ hdry hsave
      simp only [deploy, hc2, Bool.false_eq_true, if_false]
      unfold finalize
      rw [if_neg (by simp [hdry]), if_pos (by simp [hsave])]
      simp

/-- C2 witness: a failed connection and, separately, a failed manifest
save, both on concrete inputs. -/
theorem deploy_never_raises_witness :
    (deploy cfgClear { connectFails := true } [] {}).closed = true ∧
    (deploy cfgClear { connectFails := true } [] {}).stats.errors =
      ["Critical error: connection failed"] ∧
    "Critical error: failed to save manifest" ∈
      (deploy cfgClear { saveFails := true } [] {}).stats.errors :=
  ⟨(deploy_never_raises_and_closes cfgClear { connectFails := true } [] {}).1,
   (deploy_never_raises_and_closes cfgClear { connectFails := true } [] {}).2.1 rfl,
   (deploy_never_raises_and_closes cfgClear { saveFails := true } [] {}).2.2
     rfl rfl rfl⟩

/-! ### C10 — size-probe errors read as "file missing" -/

/-- C10: `remoteFileExists` maps every thrown size-probe error — also a
transient one — to `false`, with no retry (the probe is a single call);
consequently a transient failure while probing for the manifest makes
`loadRemoteHashes` return the empty manifest, whatever manifest is
actually persisted remotely. -/
theorem size_error_treated_as_missing :
    (∀ msg : String, remoteFileExists (.error msg) = false) ∧
    (∀ (faults : Faults) (rs : RemoteState), faults.sizeFails = true →
      loadRemoteHashes faults rs = []) := by
  constructor
  · intro msg
    rfl
  · intro faults rs h
    simp [loadRemoteHashes, sizeProbe, h, remoteFileExists]

/-- C10 witness: a transient probe failure with a non-empty manifest
actually persisted still loads as the empty manifest. -/
theorem size_error_treated_as_missing_witness :
    remoteFileExists (.error "ETIMEDOUT") = false ∧
    loadRemoteHashes { sizeFails := true }
      { manifest := some [("a.txt", "h1")] } = [] :=
  ⟨size_error_treated_as_missing.1 "ETIMEDOUT",
   size_error_treated_as_missing.2 { sizeFails := true }
     { manifest := some [("a.txt", "h1")] } rfl⟩

/-! ### C4 — per-file upload decision -/

/-- C4: in a non-clear-destination run that connects, a local file whose
loaded manifest entry equals its fresh local hash is recorded in
`unchanged`, does not enter `uploads`, and triggers no transport write
for its path — no upload event and no file-removal event (the unchanged
branch, src/index.ts lines 362-366, issues no call at all); otherwise
(entry differs or absent), when its upload does not fail, it is recorded
in `uploads` and the in-memory manifest afterwards maps it to the new
local hash.  Local relative paths are distinct and local hashes
non-empty, as produced by the md5 fingerprinter. -/
theorem upload_decision_spec (cfg : FtpDeployConfig) (faults : Faults)
    (lh : Manifest) (rs : RemoteState) (p h : String)
    (hconn : faults.connectFails = false)
    (hclear : cfg.clear_destination = false)
    (hnd : (lh.map Prod.fst).Nodup)
    (hne : ∀ e ∈ lh, e.2 ≠ "")
    (hmem : (p, h) ∈ lh) :
    (mlookup (loadRemoteHashes faults rs) p = some h →
      p ∈ (deploy cfg faults lh rs).stats.unchanged ∧
      p ∉ (deploy cfg faults lh rs).stats.uploaded ∧
      TransportOp.upload p ∉ (deploy cfg faults lh rs).trace ∧
      TransportOp.removeFile p ∉ (deploy cfg faults lh rs).trace) ∧
    (mlookup (loadRemoteHashes faults rs) p ≠ some h →
      faults.uploadFails p = false →
      p ∈ (deploy cfg faults lh rs).stats.uploaded ∧
      mlookup (deploy cfg faults lh rs).manifest p = some h) := by
  have hl : mlookup lh p = some h := mlookup_of_mem_nodup lh p h hmem hnd
  have hhne : h ≠ "" := hne (p, h) hmem
  have hfalsy : falsy (mlookup lh p) = false :=
    falsy_false_of_some lh p h hl hhne
  have hs2 : stage2 cfg faults rs =
      { manifest := loadRemoteHashes faults rs, remote := rs } :=
    stage2_no_clear cfg faults rs hclear
  have hs2m : mlookup (stage2 cfg faults rs).manifest p =
      mlookup (loadRemoteHashes faults rs) p := by rw [hs2]
  have hs2u : (stage2 cfg faults rs).stats.uploaded = [] := by rw [hs2]
  have hs2c : (stage2 cfg faults rs).stats.unchanged = [] := by rw [hs2]
  have hs2t : (stage2 cfg faults rs).trace = [] := by rw [hs2]
  rw [deploy_eq_finalize cfg faults lh rs hconn, stage4_eq]
  have horph : ∀ remoteFiles : List String,
      p ∉ (remoteFiles.filter (fun q => falsy (mlookup lh q))).filter
        (fun q => !shouldPreserve cfg.preserve q) := by
    intro remoteFiles hc
    have h2 := List.of_mem_filter (List.mem_of_mem_filter hc)
    rw [hfalsy] at h2
    cases h2
  constructor
  · -- unchanged case
    intro hload
    have hup := uploadFiles_match_mem cfg faults lh lh (stage2 cfg faults rs)
      p h hmem hnd hl (hs2m.trans hload)
    obtain ⟨u1, u2, u3, u4⟩ := hup
    have hu2 : p ∉ (uploadFiles cfg faults lh lh
        (stage2 cfg faults rs)).stats.uploaded := by
      rw [u2, hs2u]
      exact List.not_mem_nil p
    have hu3 : TransportOp.upload p ∉ (uploadFiles cfg faults lh lh
        (stage2 cfg faults rs)).trace := by
      rw [u3, hs2t]
      exact List.not_mem_nil _
    have hu4 : TransportOp.removeFile p ∉ (uploadFiles cfg faults lh lh
        (stage2 cfg faults rs)).trace := by
      rw [uploadFiles_trace_removeFile cfg faults lh lh _ p, hs2t]
      exact List.not_mem_nil _
    split_ifs with hcl
    · refine ⟨?_, ?_, ?_, ?_⟩
      · rw [(finalize_stats_lists cfg faults _).2.2.1,
          (cleanPhase_stats_ul cfg faults _ lh _).2]
        exact u1
      · rw [(finalize_stats_lists cfg faults _).1,
          (cleanPhase_stats_ul cfg faults _ lh _).1]
        exact hu2
      · intro hc
        rcases finalize_trace cfg faults _ _ hc with h2 | h2
        · rcases cleanPhase_trace cfg faults _ lh _ _ h2 with
            h3 | ⟨q, _, h3⟩ | ⟨d, h3⟩
          · exact hu3 h3
          · cases h3
          · cases h3
        · cases h2
      · intro hc
        rcases finalize_trace cfg faults _ _ hc with h2 | h2
        · rcases cleanPhase_trace cfg faults _ lh _ _ h2 with
            h3 | ⟨q, hq, h3⟩ | ⟨d, h3⟩
          · exact hu4 h3
          · cases h3
            exact horph _ hq
          · cases h3
        · cases h2
    · refine ⟨?_, ?_, ?_, ?_⟩
      · rw [(finalize_stats_lists cfg faults _).2.2.1]
        exact u1
      · rw [(finalize_stats_lists cfg faults _).1]
        exact hu2
      · intro hc
        rcases finalize_trace cfg faults _ _ hc with h2 | h2
        · exact hu3 h2
        · cases h2
      · intro hc
        rcases finalize_trace cfg faults _ _ hc with h2 | h2
        · exact hu4 h2
        · cases h2
  · -- upload case
    intro hload hf
    have hup := uploadFiles_upload_mem cfg faults lh lh (stage2 cfg faults rs)
      p h hmem hnd hl (fun hc => hload (hs2m.symm.trans hc)) hf
    split_ifs with hcl
    · refine ⟨?_, ?_⟩
      · rw [(finalize_stats_lists cfg faults _).1,
          (cleanPhase_stats_ul cfg faults _ lh _).1]
        exact hup.1
      · rw [(finalize_stats_lists cfg faults _).2.2.2.1,
          cleanPhase_manifest_local cfg faults _ lh _ p hfalsy]
        exact hup.2
    · refine ⟨?_, ?_⟩
      · rw [(finalize_stats_lists cfg faults _).1]
        exact hup.1
      · rw [(finalize_stats_lists cfg faults _).2.2.2.1]
        exact hup.2

/-- C4 witness: two local files against manifest `{a.txt: h1}`: `a.txt`
matches (unchanged, no write events for it), `b.txt` is new (uploaded,
manifest updated). -/
theorem upload_decision_witness :
    ("a.txt" ∈ (deploy cfgPlain noFaults lhTwo rsOne).stats.unchanged ∧
      TransportOp.upload "a.txt" ∉ (deploy cfgPlain noFaults lhTwo rsOne).trace) ∧
    ("b.txt" ∈ (deploy cfgPlain noFaults lhTwo rsOne).stats.uploaded ∧
      mlookup (deploy cfgPlain noFaults lhTwo rsOne).manifest "b.txt" =
        some "h2") := by
  have h1 := (upload_decision_spec cfgPlain noFaults lhTwo rsOne "a.txt" "h1"
    rfl rfl (by decide) (by decide) (by decide)).1 (by decide)
  have h2 := (upload_decision_spec cfgPlain noFaults lhTwo rsOne "b.txt" "h2"
    rfl rfl (by decide) (by decide) (by decide)).2 (by decide) rfl
  exact ⟨⟨h1.1, h1.2.2.1⟩, h2⟩

/-! ### C5 — clean mode: orphan partition, preserve, manifest upkeep -/

/-- C5: with clean mode on and clear-destination off, in a run that
connects and whose deletions succeed: `removed` is exactly the orphan
set (remote listing minus local paths) restricted to the paths not
matched by the preserve matcher, in listing order; a preserved orphan
never appears in `removed`; a preserved orphan lacking a loaded-manifest
entry ends with the sentinel entry `"preserved"`; and every deleted
path's manifest entry is gone afterwards.  Local hashes are non-empty
(md5 digests), which makes the source's truthiness test on
`localHashes[path]` agree with set membership. -/
theorem clean_mode_spec (cfg : FtpDeployConfig) (faults : Faults)
    (lh : Manifest) (rs : RemoteState)
    (hclean : cfg.clean_remote_files = true)
    (hclear : cfg.clear_destination = false)
    (hconn : faults.connectFails = false)
    (hne : ∀ e ∈ lh, e.2 ≠ "")
    (hrf : ∀ q, faults.removeFails q = false) :
    (deploy cfg faults lh rs).stats.removed =
      ((listRemoteFiles rs).filter
        (fun q => !(lh.map Prod.fst).contains q)).filter
        (fun q => !shouldPreserve cfg.preserve q) ∧
    (∀ q ∈ (listRemoteFiles rs).filter
        (fun q2 => !(lh.map Prod.fst).contains q2),
      shouldPreserve cfg.preserve q = true →
        q ∉ (deploy cfg faults lh rs).stats.removed) ∧
    (∀ q ∈ (listRemoteFiles rs).filter
        (fun q2 => !(lh.map Prod.fst).contains q2),
      shouldPreserve cfg.preserve q = true →
        mlookup (loadRemoteHashes faults rs) q = none →
        mlookup (deploy cfg faults lh rs).manifest q = some "preserved") ∧
    (∀ q ∈ (deploy cfg faults lh rs).stats.removed,
      mlookup (deploy cfg faults lh rs).manifest q = none) := by
  have hs2 : stage2 cfg faults rs =
      { manifest := loadRemoteHashes faults rs, remote := rs } :=
    stage2_no_clear cfg faults rs hclear
  have hcl : (cfg.clean_remote_files && !cfg.clear_destination) = true := by
    simp [hclean, hclear]
  have hfc : ∀ q, falsy (mlookup lh q) = (!(lh.map Prod.fst).contains q) :=
    fun q => falsy_mlookup lh q hne
  have horpheq : (listRemoteFiles rs).filter (fun q => falsy (mlookup lh q)) =
      (listRemoteFiles rs).filter (fun q => !(lh.map Prod.fst).contains q) :=
    List.filter_congr (fun q _ => hfc q)
  have hfaults2 : ∀ x ∈ ((listRemoteFiles (stage2 cfg faults rs).remote).filter
        (fun p => falsy (mlookup lh p))).filter
        (fun p => !shouldPreserve cfg.preserve p),
      cfg.dry_run = true ∨ faults.removeFails x = false :=
    fun x _ => Or.inr (hrf x)
  rw [deploy_eq_finalize cfg faults lh rs hconn, stage4_eq, if_pos hcl]
  have hlm : listRemoteFiles (stage2 cfg faults rs).remote =
      listRemoteFiles rs := by rw [hs2]
  have hrem0 : (uploadFiles cfg faults lh lh
      (stage2 cfg faults rs)).stats.removed = [] := by
    rw [uploadFiles_stats_removed cfg faults lh lh _, hs2]
  have hs2m : ∀ q, mlookup (stage2 cfg faults rs).manifest q =
      mlookup (loadRemoteHashes faults rs) q := by
    intro q
    rw [hs2]
  have hremoved :
      (finalize cfg faults (cleanPhase cfg faults
        (listRemoteFiles (stage2 cfg faults rs).remote) lh
        (uploadFiles cfg faults lh lh (stage2 cfg faults rs)))).stats.removed =
      ((listRemoteFiles rs).filter
        (fun q => !(lh.map Prod.fst).contains q)).filter
        (fun q => !shouldPreserve cfg.preserve q) := by
    rw [(finalize_stats_lists cfg faults _).2.1,
      cleanPhase_removed cfg faults _ lh _ hfaults2,
      hrem0, List.nil_append, hlm, horpheq]
  refine ⟨hremoved, ?_, ?_, ?_⟩
  · intro q hq hpres
    rw [hremoved]
    intro hc
    have := List.of_mem_filter hc
    rw [hpres] at this
    cases this
  · intro q hq hpres hload
    have hnotkey : q ∉ lh.map Prod.fst := by
      have := List.of_mem_filter hq
      simpa [List.elem_iff] using this
    have hq2 : q ∈ (listRemoteFiles (stage2 cfg faults rs).remote).filter
        (fun p => falsy (mlookup lh p)) := by
      rw [hlm, horpheq]
      exact hq
    rw [(finalize_stats_lists cfg faults _).2.2.2.1]
    apply cleanPhase_manifest_preserved cfg faults _ lh _ q hq2 hpres
    rw [(uploadFiles_not_key cfg faults lh lh _ q hnotkey).1, hs2m q]
    exact hload
  · intro q hq
    rw [hremoved] at hq
    have hq2 : q ∈ ((listRemoteFiles (stage2 cfg faults rs).remote).filter
        (fun p => falsy (mlookup lh p))).filter
        (fun p => !shouldPreserve cfg.preserve p) := by
      rw [hlm, horpheq]
      exact hq
    rw [(finalize_stats_lists cfg faults _).2.2.2.1]
    exact cleanPhase_manifest_removed cfg faults _ lh _ q hfaults2 hq2

/-- C5 witness: remote `["a.txt", "old.txt", "keep/x"]` with preserve
entry `keep`, local tree `{a.txt}`: only `old.txt` is removed, `keep/x`
gets the sentinel, and `old.txt` loses its manifest entry. -/
theorem clean_mode_witness :
    (deploy cfgClean noFaults [("a.txt", "h1")] rsClean).stats.removed =
      ["old.txt"] ∧
    mlookup (deploy cfgClean noFaults [("a.txt", "h1")] rsClean).manifest
      "keep/x" = some "preserved" ∧
    mlookup (deploy cfgClean noFaults [("a.txt", "h1")] rsClean).manifest
      "old.txt" = none := by
  have hs := clean_mode_spec cfgClean noFaults [("a.txt", "h1")] rsClean
    rfl rfl rfl (by decide) (fun q => rfl)
  refine ⟨hs.1.trans (by decide), ?_, ?_⟩
  · exact hs.2.2.1 "keep/x" (by decide) (by decide) (by decide)
  · apply hs.2.2.2 "old.txt"
    rw [hs.1]
    decide

/-! ### C6 — dry-run: no mutation, same plan -/

/-- C6: with `dry_run = true` the run issues no transport mutation at
all (empty mutation trace: no upload, file deletion, directory removal
or creation, and no manifest save) and the remote state is untouched,
whatever the fault pattern; and — against a fault-free transport — the
dry run returns exactly the same stats record and ends with exactly the
same in-memory manifest working copy as the corresponding real run, so
the plan it reports matches what the real run would do. -/
theorem dry_run_spec (cfg : FtpDeployConfig) (faults : Faults)
    (lh : Manifest) (rs : RemoteState) :
    (cfg.dry_run = true →
      (deploy cfg faults lh rs).trace = [] ∧
      (deploy cfg faults lh rs).remote = rs) ∧
    (deploy { cfg with dry_run := true } noFaults lh rs).stats =
      (deploy { cfg with dry_run := false } noFaults lh rs).stats ∧
    (deploy { cfg with dry_run := true } noFaults lh rs).manifest =
      (deploy { cfg with dry_run := false } noFaults lh rs).manifest := by
  have h4 := stage4_dry_real { cfg with dry_run := true }
    { cfg with dry_run := false } rfl rfl rfl rfl rfl lh rs
  refine ⟨?_, ?_, ?_⟩
  · intro hd
    by_cases hc : faults.connectFails = true
    · constructor
      · simp [deploy, hc]
      · simp [deploy, hc]
    · have hc2 : faults.connectFails = false := by simpa using hc
      rw [deploy_eq_finalize cfg faults lh rs hc2]
      have hs4 := stage4_dry cfg faults lh rs hd
      unfold finalize
      rw [if_pos hd]
      exact ⟨hs4.2, hs4.1⟩
  · rw [deploy_eq_finalize _ noFaults lh rs rfl,
      deploy_eq_finalize _ noFaults lh rs rfl,
      finalize_stats_noSave _ noFaults _ rfl,
      finalize_stats_noSave _ noFaults _ rfl]
    exact h4.1
  · rw [deploy_eq_finalize _ noFaults lh rs rfl,
      deploy_eq_finalize _ noFaults lh rs rfl,
      (finalize_stats_lists _ noFaults _).2.2.2.1,
      (finalize_stats_lists _ noFaults _).2.2.2.1]
    exact h4.2

/-- C6 witness: a concrete dry run in clean mode mutates nothing and its
stats agree with the corresponding real run. -/
theorem dry_run_witness :
    ((deploy { cfgClean with dry_run := true } noFaults [("a.txt", "h1")]
        rsClean).trace = [] ∧
      (deploy { cfgClean with dry_run := true } noFaults [("a.txt", "h1")]
        rsClean).remote = rsClean) ∧
    (deploy { cfgClean with dry_run := true } noFaults [("a.txt", "h1")]
        rsClean).stats =
      (deploy { cfgClean with dry_run := false } noFaults [("a.txt", "h1")]
        rsClean).stats :=
  ⟨(dry_run_spec { cfgClean with dry_run := true } noFaults [("a.txt", "h1")]
      rsClean).1 rfl,
   (dry_run_spec cfgClean noFaults [("a.txt", "h1")] rsClean).2.1⟩

/-! ### C8 — idempotence of a second run -/

theorem loadRemoteHashes_noFaults_some (rs : RemoteState) (m : Manifest)
    (h : rs.manifest = some m) :
    loadRemoteHashes noFaults rs = m := by
  unfold loadRemoteHashes sizeProbe remoteFileExists
  rw [h]
  simp [noFaults]

theorem uploadFiles_lookup_final (cfg : FtpDeployConfig) (faults : Faults)
    (lh : Manifest) (p h : String) (s : EngineState)
    (hnd : (lh.map Prod.fst).Nodup) (hmem : (p, h) ∈ lh)
    (hf : faults.uploadFails p = false) :
    mlookup (uploadFiles cfg faults lh lh s).manifest p = some h := by
  have hl := mlookup_of_mem_nodup lh p h hmem hnd
  by_cases hm : mlookup s.manifest p = some h
  · exact (uploadFiles_match_mem cfg faults lh lh s p h hmem hnd hl hm).2.2.2
  · exact (uploadFiles_upload_mem cfg faults lh lh s p h hmem hnd hl hm hf).2

theorem cleanPhase_files (cfg : FtpDeployConfig) (faults : Faults)
    (remoteFiles : List String) (lhm : Manifest) (s : EngineState)
    (hd : cfg.dry_run = false) (hrf : ∀ q, faults.removeFails q = false)
    (x : String) :
    (x ∈ (cleanPhase cfg faults remoteFiles lhm s).remote.files ↔
      x ∈ s.remote.files ∧
        x ∉ (remoteFiles.filter (fun p => falsy (mlookup lhm p))).filter
          (fun p => !shouldPreserve cfg.preserve p)) := by
  simp only [cleanPhase]
  split_ifs
  · rw [removeOrphans_files_real cfg faults _ hd (fun q _ => hrf q) _ x]
  · rw [(removeEmptyDirectories_preserves _ _).2.2.1,
      removeOrphans_files_real cfg faults _ hd (fun q _ => hrf q) _ x]

/-- C8 (counterexample): three second runs violating the claim as
stated, each after an error-free first run with `clean=true` and the
same configuration and local tree.  With `dry_run=true` nothing is
persisted, so the second run re-reports the same upload; with
`clear_destination=true` the second run wipes what the first uploaded,
so `removed` is non-empty; and a transient manifest-probe failure in the
second run (nothing the configuration controls) empties the loaded
manifest and re-uploads everything. -/
theorem idempotence_counterexample :
    ((deploy cfgDryClean noFaults [("a", "h")] rsEmpty).stats.errors = [] ∧
      (deploy cfgDryClean noFaults [("a", "h")]
        (deploy cfgDryClean noFaults [("a", "h")] rsEmpty).remote
        ).stats.uploaded = ["a"]) ∧
    ((deploy cfgClearClean noFaults [("a", "h")] rsEmpty).stats.errors = [] ∧
      (deploy cfgClearClean noFaults [("a", "h")]
        (deploy cfgClearClean noFaults [("a", "h")] rsEmpty).remote
        ).stats.removed = ["a"]) ∧
    ((deploy cfgCleanOnly noFaults [("a", "h")] rsEmpty).stats.errors = [] ∧
      (deploy cfgCleanOnly { sizeFails := true } [("a", "h")]
        (deploy cfgCleanOnly noFaults [("a", "h")] rsEmpty).remote
        ).stats.uploaded = ["a"]) := by
  exact ⟨⟨rfl, rfl⟩, ⟨rfl, rfl⟩, ⟨rfl, rfl⟩⟩

/-- C8 (amended): with `clean=true`, `clear_destination=false` and
`dry_run=false`, and no transport faults in either run, running the
engine twice with the same configuration and no intervening local
changes leaves both `uploads` and `removed` empty on the second run.
Local paths are distinct and local hashes non-empty (md5 digests). -/
theorem idempotent_second_run (cfg : FtpDeployConfig) (lh : Manifest)
    (rs : RemoteState)
    (hclean : cfg.clean_remote_files = true)
    (hclear : cfg.clear_destination = false)
    (hdry : cfg.dry_run = false)
    (hnd : (lh.map Prod.fst).Nodup)
    (hne : ∀ e ∈ lh, e.2 ≠ "") :
    (deploy cfg noFaults lh
      (deploy cfg noFaults lh rs).remote).stats.uploaded = [] ∧
    (deploy cfg noFaults lh
      (deploy cfg noFaults lh rs).remote).stats.removed = [] := by
  have hcl : (cfg.clean_remote_files && !cfg.clear_destination) = true := by
    simp [hclean, hclear]
  have hlm1 : listRemoteFiles (stage2 cfg noFaults rs).remote =
      listRemoteFiles rs := by
    rw [stage2_no_clear cfg noFaults rs hclear]
  have hs4eq : stage4 cfg noFaults lh rs =
      cleanPhase cfg noFaults (listRemoteFiles rs) lh
        (uploadFiles cfg noFaults lh lh (stage2 cfg noFaults rs)) := by
    rw [stage4_eq, if_pos hcl, hlm1]
  have hr1m : (deploy cfg noFaults lh rs).remote.manifest =
      some (stage4 cfg noFaults lh rs).manifest := by
    rw [deploy_eq_finalize cfg noFaults lh rs rfl]
    exact finalize_saves cfg noFaults _ hdry rfl
  have hr1files : (deploy cfg noFaults lh rs).remote.files =
      (stage4 cfg noFaults lh rs).remote.files := by
    rw [deploy_eq_finalize cfg noFaults lh rs rfl]
    exact (finalize_stats_lists cfg noFaults _).2.2.2.2
  have hM : ∀ p h2, (p, h2) ∈ lh →
      mlookup (stage4 cfg noFaults lh rs).manifest p = some h2 := by
    intro p h2 hmem
    have hl := mlookup_of_mem_nodup lh p h2 hmem hnd
    have hfal : falsy (mlookup lh p) = false :=
      falsy_false_of_some lh p h2 hl (hne (p, h2) hmem)
    rw [hs4eq, cleanPhase_manifest_local cfg noFaults _ lh _ p hfal]
    exact uploadFiles_lookup_final cfg noFaults lh p h2 _ hnd hmem rfl
  have hload2 : loadRemoteHashes noFaults (deploy cfg noFaults lh rs).remote =
      (stage4 cfg noFaults lh rs).manifest :=
    loadRemoteHashes_noFaults_some _ _ hr1m
  have hs2r2m : ∀ q, mlookup (stage2 cfg noFaults
        (deploy cfg noFaults lh rs).remote).manifest q =
      mlookup (stage4 cfg noFaults lh rs).manifest q := by
    intro q
    rw [stage2_no_clear cfg noFaults _ hclear]
    show mlookup (loadRemoteHashes noFaults
      (deploy cfg noFaults lh rs).remote) q = _
    rw [hload2]
  have hall : ∀ e ∈ lh, mlookup (stage2 cfg noFaults
        (deploy cfg noFaults lh rs).remote).manifest e.1 =
      some ((mlookup lh e.1).getD "") := by
    intro e he
    have hpair : (e.1, e.2) ∈ lh := by simpa using he
    have hl := mlookup_of_mem_nodup lh e.1 e.2 hpair hnd
    rw [hs2r2m e.1, hM e.1 e.2 hpair, hl]
    rfl
  have hup2 := uploadFiles_all_match cfg noFaults lh lh
    (stage2 cfg noFaults (deploy cfg noFaults lh rs).remote) hall
  have hs2stats : (stage2 cfg noFaults
      (deploy cfg noFaults lh rs).remote).stats = {} := by
    rw [stage2_no_clear cfg noFaults _ hclear]
  have hup2u : (uploadFiles cfg noFaults lh lh (stage2 cfg noFaults
      (deploy cfg noFaults lh rs).remote)).stats.uploaded = [] := by
    rw [hup2]
    show (stage2 cfg noFaults (deploy cfg noFaults lh rs).remote).stats.uploaded = []
    rw [hs2stats]
  have hup2r : (uploadFiles cfg noFaults lh lh (stage2 cfg noFaults
      (deploy cfg noFaults lh rs).remote)).stats.removed = [] := by
    rw [hup2]
    show (stage2 cfg noFaults (deploy cfg noFaults lh rs).remote).stats.removed = []
    rw [hs2stats]
  have hftr2 : ((listRemoteFiles (deploy cfg noFaults lh rs).remote).filter
      (fun p => falsy (mlookup lh p))).filter
      (fun p => !shouldPreserve cfg.preserve p) = [] := by
    rw [List.eq_nil_iff_forall_not_mem]
    intro q hq
    have hq1 := List.mem_of_mem_filter hq
    have hqf := List.of_mem_filter hq1
    have hqpres := List.of_mem_filter hq
    have hqlist := List.mem_of_mem_filter hq1
    have hfc := falsy_mlookup lh q hne
    have hqkeys : q ∉ lh.map Prod.fst := by
      rw [hfc] at hqf
      simpa [List.elem_iff] using hqf
    have hqname := List.of_mem_filter hqlist
    have hqfiles : q ∈ (deploy cfg noFaults lh rs).remote.files :=
      List.mem_of_mem_filter hqlist
    rw [hr1files, hs4eq,
      cleanPhase_files cfg noFaults _ lh _ hdry (fun q2 => rfl) q] at hqfiles
    obtain ⟨hq3, hq4⟩ := hqfiles
    rcases uploadFiles_files_mem cfg noFaults lh lh _ q hq3 with h5 | h5
    · have hq5 : q ∈ rs.files := by
        rw [stage2_no_clear cfg noFaults rs hclear] at h5
        exact h5
      apply hq4
      apply List.mem_filter.mpr
      have hqf0 := (List.mem_filter.mp hq1).2
      exact ⟨List.mem_filter.mpr ⟨List.mem_filter.mpr ⟨hq5, hqname⟩, hqf0⟩,
        hqpres⟩
    · exact hqkeys h5
  have hlm2 : listRemoteFiles (stage2 cfg noFaults
      (deploy cfg noFaults lh rs).remote).remote =
      listRemoteFiles (deploy cfg noFaults lh rs).remote := by
    rw [stage2_no_clear cfg noFaults _ hclear]
  have hs4eq2 : stage4 cfg noFaults lh (deploy cfg noFaults lh rs).remote =
      cleanPhase cfg noFaults
        (listRemoteFiles (deploy cfg noFaults lh rs).remote) lh
        (uploadFiles cfg noFaults lh lh (stage2 cfg noFaults
          (deploy cfg noFaults lh rs).remote)) := by
    rw [stage4_eq, if_pos hcl, hlm2]
  constructor
  · rw [deploy_eq_finalize cfg noFaults lh _ rfl,
      finalize_stats_noSave cfg noFaults _ rfl, hs4eq2,
      (cleanPhase_stats_ul cfg noFaults _ lh _).1, hup2u]
  · rw [deploy_eq_finalize cfg noFaults lh _ rfl,
      finalize_stats_noSave cfg noFaults _ rfl, hs4eq2,
      cleanPhase_removed cfg noFaults _ lh _ (fun x _ => Or.inr rfl),
      hup2r, hftr2]
    rfl

/-- C8 witness for the amended theorem: clean-mode real run repeated on
an initially empty remote. -/
theorem idempotent_second_run_witness :
    (deploy cfgCleanOnly noFaults [("a", "h")]
      (deploy cfgCleanOnly noFaults [("a", "h")] rsEmpty).remote
      ).stats.uploaded = [] ∧
    (deploy cfgCleanOnly noFaults [("a", "h")]
      (deploy cfgCleanOnly noFaults [("a", "h")] rsEmpty).remote
      ).stats.removed = [] :=
  idempotent_second_run cfgCleanOnly [("a", "h")] rsEmpty rfl rfl rfl
    (by decide) (by decide)

end FtpDeploy
